import Mathlib

/-!
# dbbench: generation of a dbbench configuration from Qserv integration-test datasets

A shallow embedding of `src/dbbench/main.go`.

* A Go `string` is modelled as the list of its code points (`GoString`); the texts handled
  (file names, YAML scalars, SQL files) are taken to be valid UTF-8, for which the byte-wise
  operations of package `strings` used here agree with the same operations on code points.
* A `*yaml.Node` is modelled by `Node`, carrying the three fields the program reads
  (`Kind`, `Value`, `Content`).
* Reading, parsing and opening files is outside the model: functions take what the library
  calls hand to the program (the parsed YAML root, the directory listing with the file
  contents, the values selected by the JSON path) and the runs covered are those in which no
  operation of the operating system reports an error. What the libraries decide from the
  data is modelled: the scanner's refusal of a line that is too long, and the order in which
  a Go map is ranged over.
-/

namespace Dbbench

/-- Go `string`, as a sequence of code points. -/
abbrev GoString := List Char

/-! ## Package `strings` -/

/-- Go `strings.HasPrefix(s, p)`. -/
def HasPrefix (s p : GoString) : Bool := p.isPrefixOf s

/-- Go `strings.HasSuffix(s, suffix)`. -/
def HasSuffix (s suffix : GoString) : Bool := suffix.isSuffixOf s

/-- Go `strings.TrimSuffix(s, suffix)`: `s` without the trailing `suffix`, removed once, or
`s` itself when it does not end in `suffix`. -/
def TrimSuffix (s suffix : GoString) : GoString :=
  if HasSuffix s suffix then s.take (s.length - suffix.length) else s

/-- Go `unicode.IsSpace`: the code points with Unicode property White_Space. -/
def IsSpace (r : Char) : Bool :=
  let n := r.toNat
  (9 ≤ n && n ≤ 13) || n == 0x20 || n == 0x85 || n == 0xA0 || n == 0x1680 ||
  (0x2000 ≤ n && n ≤ 0x200A) || n == 0x2028 || n == 0x2029 || n == 0x202F ||
  n == 0x205F || n == 0x3000

/-- Go `strings.TrimSpace(s)`: `s` without leading and trailing white space
(as `unicode.IsSpace` defines it). -/
def TrimSpace (s : GoString) : GoString :=
  (s.dropWhile IsSpace).rdropWhile IsSpace

/-- Go `strings.Split(s, sep)` for a non-empty separator: the pieces of `s` between the
successive, non-overlapping occurrences of `sep`, found from the left. The first argument
counts the characters of a separator occurrence that remain to be skipped. -/
def SplitFrom (sep : GoString) : Nat → GoString → List GoString
  | _, [] => [[]]
  | skip + 1, _ :: cs => SplitFrom sep skip cs
  | 0, c :: cs =>
    if sep.isPrefixOf (c :: cs) then [] :: SplitFrom sep (sep.length - 1) cs
    else
      match SplitFrom sep 0 cs with
      | [] => [[c]]
      | piece :: pieces => (c :: piece) :: pieces

/-- Go `strings.Split(s, sep)`; with an empty separator Go splits after each code point. -/
def Split (s sep : GoString) : List GoString :=
  if sep = [] then s.map (fun c => [c]) else SplitFrom sep 0 s

/-! ## Package `regexp`: the pattern `\s+` -/

/-- The class `\s` of Go regular expressions (RE2 syntax): `[\t\n\f\r ]`. -/
def reSpace (c : Char) : Bool :=
  c == '\t' || c == '\n' || c == '\x0c' || c == '\r' || c == ' '

/-- Replacement of the matches of `\s+` from the left: `inMatch` tells that the
preceding character belongs to a match whose replacement is already written. -/
def replaceAllFrom (repl : GoString) : Bool → GoString → GoString
  | _, [] => []
  | inMatch, c :: cs =>
    if reSpace c then
      if inMatch then replaceAllFrom repl true cs
      else repl ++ replaceAllFrom repl true cs
    else c :: replaceAllFrom repl false cs

/-- Go `regexp.MustCompile("\\s+").ReplaceAllString(src, repl)` for a replacement text
without `$`: every maximal run of `\s` characters is replaced by `repl`. -/
def spaceReplaceAllString (src repl : GoString) : GoString :=
  replaceAllFrom repl false src

/-! ## Package `bufio`: scanning lines -/

/-- Go `bufio.dropCR`: drops one trailing carriage return. -/
def dropCR (data : GoString) : GoString :=
  if data.getLast? = some '\r' then data.dropLast else data

/-- The pieces of the input that end at a line feed, the line feed left out, followed by a
last non-empty piece without line feed. -/
def splitLines : GoString → List GoString
  | [] => []
  | c :: cs =>
    if c = '\n' then [] :: splitLines cs
    else
      match splitLines cs with
      | [] => [[c]]
      | line :: lines => (c :: line) :: lines

/-- The tokens of a scan that ends without error: the lines of the input, each without its
end-of-line marker (a line feed, with one optional carriage return in front). -/
def ScanLines (content : GoString) : List GoString :=
  (splitLines content).map dropCR

/-- Go `bufio.MaxScanTokenSize`, the size up to which the buffer of a scanner grows. -/
def MaxScanTokenSize : Nat := 64 * 1024

/-- Go `len(s)`: the number of bytes of the UTF-8 encoding of the text. -/
def byteLen (s : GoString) : Nat := (s.map Char.utf8Size).sum

/-- The error of a scanner. -/
inductive ScanError
  | ErrTooLong
  deriving DecidableEq, Repr

/-- A `bufio.Scanner` with the split function `bufio.ScanLines` run over the lines of the
input: the tokens `sc.Text()` yields over the successful calls of `sc.Scan()`, and the final
`sc.Err()`. A line of `MaxScanTokenSize` bytes or more (its carriage return counted, its line
feed not) does not fit the buffer together with its end: `sc.Scan()` returns false there and
`sc.Err()` is `bufio.ErrTooLong`. -/
def scanFrom : List GoString → List GoString × Option ScanError
  | [] => ([], none)
  | line :: lines =>
    if MaxScanTokenSize ≤ byteLen line then ([], some ScanError.ErrTooLong)
    else (dropCR line :: (scanFrom lines).1, (scanFrom lines).2)

/-- The scanner of `getSQL` run over a file content. -/
def Scan (content : GoString) : List GoString × Option ScanError :=
  scanFrom (splitLines content)

/-! ## Package `yaml`: nodes -/

/-- Go `yaml.Kind`. -/
inductive Kind
  | DocumentNode
  | SequenceNode
  | MappingNode
  | ScalarNode
  | AliasNode
  deriving DecidableEq, Repr

/-- Go `yaml.Node`, with the fields the program reads. The children of a mapping node are
its keys and values in turn: key, value, key, value, ... -/
inductive Node
  | mk (Kind : Kind) (Value : GoString) (Content : List Node)

/-- Field `Kind` of a node. -/
def Node.Kind : Node → Kind
  | .mk k _ _ => k

/-- Field `Value` of a node. -/
def Node.Value : Node → GoString
  | .mk _ v _ => v

/-- Field `Content` of a node. -/
def Node.Content : Node → List Node
  | .mk _ _ c => c

/-- The errors the program builds. -/
inductive Error
  | nonScalarTask
  | nonListTask
  | inFile (filename : GoString) (err : Error)
  deriving DecidableEq, Repr

/-! ## `SkippedQueries` -/

/-- How the first loop of the mapping case of `descend` ends: it ran over all the pairs
(`found` still false), it left by `break` with `found` true, or `descend` returned an error
from inside it. -/
inductive IdScan
  | notFound
  | found
  | failed (err : Error)
  deriving DecidableEq, Repr

/-- The key tested by `key.Kind != yaml.ScalarNode || key.Value != name`, negated. -/
def isKey (name : GoString) (key : Node) : Bool :=
  key.Kind == Kind.ScalarNode && key.Value == name

/-- Go `for _, item := range value.Content { t.QueryIds = append(t.QueryIds, item.Value) }`. -/
def appendValues (QueryIds : List GoString) (items : List Node) : List GoString :=
  items.foldl (fun ids item => ids ++ [item.Value]) QueryIds

/-- Second loop of the mapping case of `descend`, run when `found` is true: the items of
every `skip_numbers` value are appended to `QueryIds`; a `skip_numbers` value that is not a
sequence makes `descend` return an error. `none` is the run-time panic of `node.Content[i+1]`
on a key without value. -/
def collectSkipNumbers : List Node → List GoString → Option (List GoString × Option Error)
  | [], ids => some (ids, none)
  | [_], _ => none
  | key :: value :: rest, ids =>
    if !isKey "skip_numbers".toList key then collectSkipNumbers rest ids
    else if value.Kind ≠ Kind.SequenceNode then some (ids, some Error.nonListTask)
    else collectSkipNumbers rest (appendValues ids value.Content)

mutual
/-- Go `(t *SkippedQueries) descend(node)`, with `t.QueryIds` passed in and out: the result
is the new `t.QueryIds` and the returned `error` (`none` for `nil`). The outer `none` is a
run-time panic (index out of range on a mapping key without value). The errors returned by
the recursive calls are dropped, as in the source. -/
def descend (CaseId : GoString) : Node → List GoString → Option (List GoString × Option Error)
  | .mk .SequenceNode _ Content, ids =>
    match descendItems CaseId Content ids with
    | none => none
    | some ids1 => some (ids1, none)
  | .mk .MappingNode _ Content, ids =>
    match descendPairs CaseId Content ids with
    | none => none
    | some (ids1, .failed err) => some (ids1, some err)
    | some (ids1, .found) => collectSkipNumbers Content ids1
    | some (ids1, .notFound) => some (ids1, none)
  | .mk .DocumentNode _ _, ids => some (ids, none)
  | .mk .ScalarNode _ _, ids => some (ids, none)
  | .mk .AliasNode _ _, ids => some (ids, none)
/-- Go `for _, item := range node.Content { t.descend(item) }` of the sequence case. -/
def descendItems (CaseId : GoString) : List Node → List GoString → Option (List GoString)
  | [], ids => some ids
  | item :: rest, ids =>
    match descend CaseId item ids with
    | none => none
    | some (ids1, _) => descendItems CaseId rest ids1
/-- First loop of the mapping case of `descend`, over the pairs key, value. -/
def descendPairs (CaseId : GoString) : List Node → List GoString → Option (List GoString × IdScan)
  | [], ids => some (ids, .notFound)
  | [_], _ => none
  | key :: value :: rest, ids =>
    if !isKey "id".toList key then
      match descend CaseId value ids with
      | none => none
      | some (ids1, _) => descendPairs CaseId rest ids1
    else if value.Kind ≠ Kind.ScalarNode then some (ids, .failed Error.nonScalarTask)
    else if value.Value = CaseId then some (ids, .found)
    else descendPairs CaseId rest ids
end

/-- Go `(t *SkippedQueries) UnmarshalYAML(value)` for a receiver with the given `CaseId`:
`t.QueryIds` is reset to `nil` and the tree is walked. -/
def UnmarshalYAML (CaseId : GoString) (value : Node) : Option (List GoString × Option Error) :=
  descend CaseId value []

/-- Go `getSkippedQueries(filename, caseId)` when the file could be read and parsed into the
root node `root` that `yaml.Unmarshal` hands to `UnmarshalYAML`: the pair returned is
`(t.QueryIds, nil)` or `(nil, err)`. `none` is a run-time panic. The identifiers are also
printed to the standard output, which the model leaves out. -/
def getSkippedQueries (filename : GoString) (root : Node) (caseId : GoString) :
    Option (Except Error (List GoString)) :=
  match UnmarshalYAML caseId root with
  | none => none
  | some (_, some err) => some (.error (Error.inFile filename err))
  | some (QueryIds, none) => some (.ok QueryIds)

/-! ## Count queries -/

/-- What `x.Get(obj)` can return for the path `.tables.*.schema` on a metadata document whose
member `tables` is a JSON object: `schemas` lists the `schema` values (strings) of the
entries of `tables` in document order. `oj.ParseString` makes the object a Go map and the
wildcard ranges over that map; Go leaves the order of such a range unspecified and it
changes from one call to the next, so every order of the values is allowed. -/
def Get (schemas ys : List GoString) : Prop := ys.Perm schemas

/-- Go `generateCountQueries(filename)` when the metadata file could be read and parsed, from
the call of `x.Get(obj)` on: `ys` is what that call returned, in the order it returned it
(see `Get`). -/
def generateCountQueries (ys : List GoString) : GoString :=
  ys.foldl
    (fun out v =>
      let table := TrimSuffix v ".json".toList
      let query := "[count".toList ++ table ++ "]\nquery=SELECT count(*) FROM ".toList ++ table ++
        "\nquery-results-file=/tmp/dbbench/count".toList ++ table ++ ".csv\ncount=1\n\n".toList
      out ++ query)
    []

/-! ## Normalisation of a query file -/

/-- Body of the loop of `getSQL` for one scanned line: the new value of `sql`. -/
def getSQLLine (sql line : GoString) : GoString :=
  let data := TrimSuffix line "\n".toList
  let data := (Split data "--".toList).headD []
  let data := (Split data ";".toList).headD []
  let data := TrimSpace data
  if data.length ≠ 0 then
    let data := data ++ " ".toList
    let data := spaceReplaceAllString data " ".toList
    sql ++ data
  else sql

/-- The loop of `getSQL` over the scanned lines and the `TrimSuffix` that follows it. -/
def getSQLOfLines (lines : List GoString) : GoString :=
  let sql := lines.foldl getSQLLine []
  TrimSuffix sql " ".toList

/-- Go `getSQL(filename)` for a file that opens and whose content is `content`: the returned
text, or `none` when `check(sc.Err())` panics. -/
def getSQL (content : GoString) : Option GoString :=
  let scanned := Scan content
  let sql := getSQLOfLines scanned.1
  match scanned.2 with
  | some _ => none
  | none => some sql

/-! ## Output -/

/-- A `bufio.Writer` in front of the output file: `file` is what has reached the file,
`buf` what has been written to the writer and not flushed yet. Writes go to the buffer and
only `Flush` moves them to the file; that `bufio.Writer` also empties a buffer that is full
(4096 bytes by default) is left out. -/
structure Writer where
  file : GoString
  buf : GoString
  deriving DecidableEq, Repr

/-- Go `w.WriteString(s)`: the text goes to the buffer. -/
def Writer.WriteString (w : Writer) (s : GoString) : Writer :=
  { w with buf := w.buf ++ s }

/-- Go `w.Flush()`: the buffered text goes to the file. -/
def Writer.Flush (w : Writer) : Writer :=
  { file := w.file ++ w.buf, buf := [] }

/-- A directory entry of the query directory: its name and, for use by `getSQL`, the content
of the file of that name. -/
structure FileInfo where
  Name : GoString
  Data : GoString
  deriving DecidableEq, Repr

/-- Go `fmt.Sprintf("%d", i)` for a counter that is never negative. -/
def formatInt (i : Nat) : GoString := Nat.toDigits 10 i

/-- First loop of `main`: the entries whose name ends in `.sql` and that no skipped
identifier marks, appended to `sqlFiles` in the order of the listing. -/
def selectSqlFiles (files : List FileInfo) (skippedQueryIds : List GoString) : List FileInfo :=
  files.foldl
    (fun sqlFiles file =>
      if HasSuffix file.Name ".sql".toList then
        let skipped := skippedQueryIds.foldl
          (fun skipped skippedId => if HasPrefix file.Name skippedId then true else skipped) false
        if !skipped then sqlFiles ++ [file] else sqlFiles
      else sqlFiles)
    []

/-- How `main` ends: it returns, with the writer in the given state (the deferred
`f.Close()` closes the file and does not flush the writer), or it stops in a panic, the
output file, if it was created, holding `file`. -/
inductive Outcome
  | returned (w : Writer)
  | panicked (file : Option GoString)
  deriving DecidableEq, Repr

/-- Second loop of `main`, from the writer `w` and the counter `i`: for each file the two
writes of the bracketed index and of the comment, the call of `getSQL`, the three writes of
the query, of the results file and of `count=1`, then `i++` and `w.Flush()`. When `getSQL`
panics the output file keeps what was flushed before. -/
def writeQueries : List FileInfo → Writer → Nat → Outcome
  | [], w, _ => Outcome.returned w
  | file :: sqlFiles, w, i =>
    let w := w.WriteString ("[".toList ++ formatInt i ++ "]\n".toList)
    let w := w.WriteString ("; ".toList ++ file.Name ++ "\n".toList)
    match getSQL file.Data with
    | none => Outcome.panicked (some w.file)
    | some sql =>
      let w := w.WriteString ("query=".toList ++ sql ++ "\n".toList)
      let w := w.WriteString
        ("query-results-file=/tmp/dbbench/".toList ++ formatInt i ++ ".csv\n".toList)
      let w := w.WriteString "count=1\n\n".toList
      writeQueries sqlFiles w.Flush (i + 1)

/-- Go `main`, from the parsed inputs: `conf_file` names the YAML configuration whose root
node is `conf`, `files` is the listing of the query directory and `ys` is what `x.Get`
returns in `generateCountQueries`. A panic of `check` after `getSkippedQueries` comes before
the output file is created. -/
def main (conf_file case_id : GoString) (conf : Node) (files : List FileInfo)
    (ys : List GoString) : Outcome :=
  match getSkippedQueries conf_file conf case_id with
  | none => Outcome.panicked none
  | some (.error _) => Outcome.panicked none
  | some (.ok skippedQueryIds) =>
    let sqlFiles := selectSqlFiles files skippedQueryIds
    let w : Writer := { file := [], buf := [] }
    let countQueries := generateCountQueries ys
    let w := w.WriteString countQueries
    writeQueries sqlFiles w 0

/-! ## Node trees, for the statements about `descend` -/

mutual
/-- The nodes of a tree: the node itself and the nodes of its children, keys included. -/
def Node.nodes : Node → List Node
  | .mk kind value content => .mk kind value content :: nodesOfList content
/-- The nodes of the trees of a list. -/
def nodesOfList : List Node → List Node
  | [] => []
  | n :: ns => n.nodes ++ nodesOfList ns
end

/-- The values of the pairs key, value of the children of a mapping node. -/
def mappingValues : List Node → List Node
  | _ :: value :: rest => value :: mappingValues rest
  | _ => []

/-- The values of the pairs whose key is the scalar `name`. -/
def valuesOfKey (name : GoString) : List Node → List Node
  | key :: value :: rest =>
    if isKey name key then value :: valuesOfKey name rest else valuesOfKey name rest
  | _ => []

/-- Among the pairs key, value there is a scalar key `id` whose scalar value is `CaseId`. -/
def hasId (CaseId : GoString) : List Node → Bool
  | key :: value :: rest =>
    (isKey "id".toList key && value.Kind == Kind.ScalarNode && value.Value == CaseId) ||
      hasId CaseId rest
  | _ => false

/-- The node is a mapping that has a scalar key `id` whose scalar value is `CaseId`. -/
def Node.isMatch (CaseId : GoString) (n : Node) : Bool :=
  n.Kind == Kind.MappingNode && hasId CaseId n.Content

/-- Every scalar key `id` among the pairs key, value has a scalar value. -/
def idValuesScalar : List Node → Bool
  | key :: value :: rest =>
    (!isKey "id".toList key || value.Kind == Kind.ScalarNode) && idValuesScalar rest
  | _ => true

/-- The mapping nodes of the tree hold pairs: an even number of children each, as every
tree built by the YAML parser does. -/
def Node.PairedMappings (root : Node) : Prop :=
  ∀ n ∈ root.nodes, n.Kind = Kind.MappingNode → n.Content.length % 2 = 0

/-- `target` is reached from the node through sequence items and mapping values only. -/
inductive Reaches : Node → Node → Prop
  | here (n : Node) : Reaches n n
  | inSequence (value : GoString) (content : List Node) (item target : Node) :
      item ∈ content → Reaches item target →
      Reaches (.mk .SequenceNode value content) target
  | inMapping (value : GoString) (content : List Node) (child target : Node) :
      child ∈ mappingValues content → Reaches child target →
      Reaches (.mk .MappingNode value content) target

/-- The error `descend` returns on a tree without a match: the one of a root mapping that
has a scalar key `id` with a value that is not scalar. -/
def rootError (n : Node) : Option Error :=
  if n.Kind = Kind.MappingNode ∧ idValuesScalar n.Content = false then
    some Error.nonScalarTask
  else none

/-! ## The normalisation, stated on the text -/

/-- The part of `s` before the first occurrence of `sep`, all of `s` when `sep` does not
occur in it. -/
def cutBefore (sep : GoString) : GoString → GoString
  | [] => []
  | c :: cs => if sep.isPrefixOf (c :: cs) then [] else c :: cutBefore sep cs

/-- A line cut at its `--` marker, then at its first semicolon, trimmed, its runs of
white space replaced by one space. -/
def normalizeLine (line : GoString) : GoString :=
  spaceReplaceAllString (TrimSpace (cutBefore ";".toList (cutBefore "--".toList line))) " ".toList

/-- A line cut at its `--` marker, without its trailing semicolon, trimmed, its runs of
white space replaced by one space. -/
def normalizeLineTrailing (line : GoString) : GoString :=
  spaceReplaceAllString (TrimSpace (TrimSuffix (cutBefore "--".toList line) ";".toList)) " ".toList

/-- Not both of two neighbouring characters are the character `a`. -/
def NotBoth (a : Char) (x y : Char) : Prop := ¬ (x = a ∧ y = a)

/-- A clean single-line text: not empty, no white space at either end, no white space
character of the class `\s` other than the space, no semicolon, no two `-` and no two spaces
in a row. -/
structure Clean (p : GoString) : Prop where
  ne : p ≠ []
  head : ∀ c, p.head? = some c → IsSpace c = false
  last : ∀ c, p.getLast? = some c → IsSpace c = false
  chars : ∀ c ∈ p, reSpace c = true → c = ' '
  semi : ';' ∉ p
  dash : List.Chain' (NotBoth '-') p
  space : List.Chain' (NotBoth ' ') p

/-! ## Sample inputs -/

/-- A scalar node. -/
def scalar (value : String) : Node := .mk .ScalarNode value.toList []

/-- A sequence node. -/
def sequence (items : List Node) : Node := .mk .SequenceNode [] items

/-- A mapping node with the given keys and values in turn. -/
def mapping (content : List Node) : Node := .mk .MappingNode [] content

/-- The YAML document
```
cases:
  - id: case01
    skip_numbers: ["0001", "0003"]
  - id: case02
    skip_numbers: ["0002"]
```
as `yaml.Unmarshal` hands it to `UnmarshalYAML`. -/
def sampleConf : Node :=
  mapping [scalar "cases", sequence [
    mapping [scalar "id", scalar "case01",
      scalar "skip_numbers", sequence [scalar "0001", scalar "0003"]],
    mapping [scalar "id", scalar "case02",
      scalar "skip_numbers", sequence [scalar "0002"]]]]

/-- A listing of a query directory. -/
def sampleFiles : List FileInfo :=
  [ { Name := "0001_a.sql".toList, Data := "SELECT 1;\n".toList },
    { Name := "0002_b.sql".toList, Data := "SELECT *\n  FROM t -- comment\n;".toList },
    { Name := "0003_c.sql".toList, Data := "SELECT 3;\n".toList },
    { Name := "0004_d.sql".toList, Data := "SELECT 4;\n".toList },
    { Name := "README".toList, Data := "queries\n".toList } ]

/-! ## The filter loop of `main` -/

theorem foldl_skipped (name : GoString) (skippedQueryIds : List GoString) (skipped : Bool) :
    skippedQueryIds.foldl
        (fun skipped skippedId => if HasPrefix name skippedId then true else skipped) skipped =
      (skipped || skippedQueryIds.any (fun skippedId => HasPrefix name skippedId)) := by
  induction skippedQueryIds generalizing skipped with
  | nil => simp
  | cons id ids ih =>
    simp only [List.foldl_cons, List.any_cons, ih]
    cases h : HasPrefix name id <;> simp

theorem foldl_select (keep : FileInfo → Bool) (files sqlFiles : List FileInfo) :
    files.foldl (fun sqlFiles file => if keep file then sqlFiles ++ [file] else sqlFiles) sqlFiles =
      sqlFiles ++ files.filter keep := by
  induction files generalizing sqlFiles with
  | nil => simp
  | cons f fs ih =>
    simp only [List.foldl_cons, ih, List.filter_cons]
    cases keep f <;> simp

theorem selectSqlFiles_eq_filter (files : List FileInfo) (skippedQueryIds : List GoString) :
    selectSqlFiles files skippedQueryIds =
      files.filter (fun file => HasSuffix file.Name ".sql".toList &&
        !skippedQueryIds.any (fun skippedId => HasPrefix file.Name skippedId)) := by
  have h := foldl_select (fun file => HasSuffix file.Name ".sql".toList &&
        !skippedQueryIds.any (fun skippedId => HasPrefix file.Name skippedId)) files []
  rw [List.nil_append] at h
  rw [← h]
  unfold selectSqlFiles
  congr 1
  funext sqlFiles file
  simp only [foldl_skipped, Bool.false_or]
  cases HasSuffix file.Name ".sql".toList <;> simp

/-- C2: the files selected by the filter loop of `main` are the entries of the listing whose
name ends in `.sql` and starts with no identifier of the skip list, in the order of the
listing; an entry whose name starts with a skipped identifier is never selected, and an entry
with a `.sql` name that starts with no skipped identifier is selected as many times as the
listing holds it (once, in a directory). -/
theorem selectSqlFiles_spec (files : List FileInfo) (skippedQueryIds : List GoString) :
    selectSqlFiles files skippedQueryIds =
        files.filter (fun file => decide (".sql".toList <:+ file.Name ∧
          ∀ skippedId ∈ skippedQueryIds, ¬ skippedId <+: file.Name)) ∧
      (∀ file, (∃ skippedId ∈ skippedQueryIds, skippedId <+: file.Name) →
        file ∉ selectSqlFiles files skippedQueryIds) ∧
      (∀ file, ".sql".toList <:+ file.Name →
        (∀ skippedId ∈ skippedQueryIds, ¬ skippedId <+: file.Name) →
        (selectSqlFiles files skippedQueryIds).count file = files.count file) := by
  have key : selectSqlFiles files skippedQueryIds =
      files.filter (fun file => decide (".sql".toList <:+ file.Name ∧
        ∀ skippedId ∈ skippedQueryIds, ¬ skippedId <+: file.Name)) := by
    rw [selectSqlFiles_eq_filter]
    generalize ".sql".toList = suffix
    congr 1
    funext file
    rw [Bool.eq_iff_iff]
    simp only [Bool.and_eq_true, Bool.not_eq_true', decide_eq_true_eq, HasSuffix, HasPrefix,
      List.isSuffixOf_iff_suffix]
    apply and_congr Iff.rfl
    rw [← Bool.not_eq_true, List.any_eq_true]
    simp only [ List.isPrefixOf_iff_prefix]
    push_neg
    rfl
  refine ⟨key, ?_, ?_⟩
  · rintro file ⟨skippedId, hmem, hpre⟩ hsel
    rw [key, List.mem_filter] at hsel
    have := of_decide_eq_true hsel.2
    exact this.2 skippedId hmem hpre
  · intro file hsuf hskip
    rw [key]
    exact List.count_filter (decide_eq_true ⟨hsuf, hskip⟩)

/-! ## Count queries -/

theorem foldl_append_flatten (stanza : GoString → GoString) (ys : List GoString)
    (out : GoString) :
    ys.foldl (fun out v => out ++ stanza v) out = out ++ (ys.map stanza).flatten := by
  induction ys generalizing out with
  | nil => simp
  | cons y ys ih => simp [ih]

theorem TrimSuffix_append (t suffix : GoString) : TrimSuffix (t ++ suffix) suffix = t := by
  unfold TrimSuffix HasSuffix
  rw [if_pos (List.isSuffixOf_iff_suffix.mpr (List.suffix_append t suffix))]
  simp

theorem TrimSuffix_of_not_suffix (s suffix : GoString) (h : ¬ suffix <:+ s) :
    TrimSuffix s suffix = s := by
  unfold TrimSuffix HasSuffix
  rw [if_neg]
  rwa [List.isSuffixOf_iff_suffix]

theorem perm_pair (a b : GoString) (ys : List GoString) (h : ys.Perm [a, b]) :
    ys = [a, b] ∨ ys = [b, a] := by
  have hlen := h.length_eq
  match ys, hlen with
  | [x, y], _ =>
    have ha : a ∈ [x, y] := h.symm.subset (List.mem_cons_self _ _)
    rcases List.mem_cons.mp ha with hx | hy
    · subst hx
      have := (List.perm_cons a).mp h
      rw [List.perm_singleton] at this
      left
      rw [List.cons.injEq] at this
      rw [this.1]
    · rw [List.mem_singleton] at hy
      subst hy
      have h2 : [a, x].Perm [a, b] := (List.Perm.swap x a []).trans h
      have := (List.perm_cons a).mp h2
      rw [List.perm_singleton] at this
      right
      rw [List.cons.injEq] at this
      rw [this.1]

set_option maxRecDepth 100000 in
theorem generateCountQueries_sample_ab :
    generateCountQueries ["a.json".toList, "b.json".toList] =
      ("[counta]\nquery=SELECT count(*) FROM a\n" ++
        "query-results-file=/tmp/dbbench/counta.csv\ncount=1\n\n" ++
        "[countb]\nquery=SELECT count(*) FROM b\n" ++
        "query-results-file=/tmp/dbbench/countb.csv\ncount=1\n\n").toList := by
  decide

set_option maxRecDepth 100000 in
theorem generateCountQueries_sample_ba :
    generateCountQueries ["b.json".toList, "a.json".toList] =
      ("[countb]\nquery=SELECT count(*) FROM b\n" ++
        "query-results-file=/tmp/dbbench/countb.csv\ncount=1\n\n" ++
        "[counta]\nquery=SELECT count(*) FROM a\n" ++
        "query-results-file=/tmp/dbbench/counta.csv\ncount=1\n\n").toList := by
  decide

/-- C4 (amended): for a metadata document whose `tables` object has entries with the `schema`
values `schemas`, `generateCountQueries` returns the concatenation, without merging equal
values, of exactly one stanza per schema value,
`[count<T>]\nquery=SELECT count(*) FROM <T>\nquery-results-file=/tmp/dbbench/count<T>.csv\ncount=1\n\n`
with `T` the value without one trailing `.json`, in the order in which `x.Get` yields the
values, which is a rearrangement of the document order; for the values `a.json`, `b.json`
these are the two stanzas of `a` and of `b`, in one order or the other. -/
theorem generateCountQueries_spec (schemas ys : List GoString) (h : Get schemas ys) :
    generateCountQueries ys =
        (ys.map fun s =>
          "[count".toList ++ TrimSuffix s ".json".toList ++
          "]\nquery=SELECT count(*) FROM ".toList ++ TrimSuffix s ".json".toList ++
          "\nquery-results-file=/tmp/dbbench/count".toList ++ TrimSuffix s ".json".toList ++
          ".csv\ncount=1\n\n".toList).flatten ∧
      ys.Perm schemas ∧ ys.length = schemas.length ∧
      (∀ t : GoString, TrimSuffix (t ++ ".json".toList) ".json".toList = t) ∧
      (∀ s : GoString, ¬ ".json".toList <:+ s → TrimSuffix s ".json".toList = s) ∧
      (schemas = ["a.json".toList, "b.json".toList] →
        generateCountQueries ys =
          ("[counta]\nquery=SELECT count(*) FROM a\n" ++
            "query-results-file=/tmp/dbbench/counta.csv\ncount=1\n\n" ++
            "[countb]\nquery=SELECT count(*) FROM b\n" ++
            "query-results-file=/tmp/dbbench/countb.csv\ncount=1\n\n").toList ∨
        generateCountQueries ys =
          ("[countb]\nquery=SELECT count(*) FROM b\n" ++
            "query-results-file=/tmp/dbbench/countb.csv\ncount=1\n\n" ++
            "[counta]\nquery=SELECT count(*) FROM a\n" ++
            "query-results-file=/tmp/dbbench/counta.csv\ncount=1\n\n").toList) := by
  refine ⟨?_, h, h.length_eq, fun t => TrimSuffix_append t _,
    fun s hs => TrimSuffix_of_not_suffix s _ hs, ?_⟩
  · unfold generateCountQueries
    rw [foldl_append_flatten (fun s =>
          "[count".toList ++ TrimSuffix s ".json".toList ++
          "]\nquery=SELECT count(*) FROM ".toList ++ TrimSuffix s ".json".toList ++
          "\nquery-results-file=/tmp/dbbench/count".toList ++ TrimSuffix s ".json".toList ++
          ".csv\ncount=1\n\n".toList)]
    rfl
  · intro hs
    rw [hs] at h
    rcases perm_pair _ _ ys h with hy | hy
    · left
      rw [hy]
      exact generateCountQueries_sample_ab
    · right
      rw [hy]
      exact generateCountQueries_sample_ba

/-- Witness of C4 on the values `a.json`, `b.json`, yielded as `b.json`, `a.json`. -/
theorem generateCountQueries_spec_witness :
    Get ["a.json".toList, "b.json".toList] ["b.json".toList, "a.json".toList] ∧
      ["b.json".toList, "a.json".toList].length = ["a.json".toList, "b.json".toList].length :=
  ⟨List.Perm.swap _ _ _,
    (generateCountQueries_spec ["a.json".toList, "b.json".toList]
      ["b.json".toList, "a.json".toList] (List.Perm.swap _ _ _)).2.2.1⟩

set_option maxRecDepth 100000 in
/-- C4 (counterexample): for the `tables` object with the schema values `a.json`, `b.json` in
document order, `x.Get` can yield `b.json` first, and `generateCountQueries` then returns the
stanza of `b` before the stanza of `a`, which is not the concatenation in document order. -/
theorem generateCountQueries_order_counterexample :
    Get ["a.json".toList, "b.json".toList] ["b.json".toList, "a.json".toList] ∧
      generateCountQueries ["b.json".toList, "a.json".toList] =
        ("[countb]\nquery=SELECT count(*) FROM b\n" ++
          "query-results-file=/tmp/dbbench/countb.csv\ncount=1\n\n" ++
          "[counta]\nquery=SELECT count(*) FROM a\n" ++
          "query-results-file=/tmp/dbbench/counta.csv\ncount=1\n\n").toList ∧
      generateCountQueries ["b.json".toList, "a.json".toList] ≠
        ("[counta]\nquery=SELECT count(*) FROM a\n" ++
          "query-results-file=/tmp/dbbench/counta.csv\ncount=1\n\n" ++
          "[countb]\nquery=SELECT count(*) FROM b\n" ++
          "query-results-file=/tmp/dbbench/countb.csv\ncount=1\n\n").toList :=
  ⟨List.Perm.swap _ _ _, by decide, by decide⟩

/-! ## Splitting and scanning -/

theorem headD_SplitFrom (sep s : GoString) :
    (SplitFrom sep 0 s).headD [] = cutBefore sep s := by
  induction s with
  | nil => rfl
  | cons c cs ih =>
    unfold SplitFrom cutBefore
    split
    · rfl
    · rw [← ih]
      cases SplitFrom sep 0 cs <;> rfl

theorem headD_Split (s sep : GoString) (h : sep ≠ []) :
    (Split s sep).headD [] = cutBefore sep s := by
  unfold Split
  rw [if_neg h, headD_SplitFrom]

theorem cutBefore_initial (sep s : GoString) : cutBefore sep s <+: s := by
  induction s with
  | nil => exact List.prefix_refl _
  | cons c cs ih =>
    unfold cutBefore
    split
    · exact List.nil_prefix
    · exact ( List.prefix_cons_inj c).mpr ih

theorem cutBefore_single_not_mem (c : Char) (s : GoString) : c ∉ cutBefore [c] s := by
  induction s with
  | nil => simp [cutBefore]
  | cons d ds ih =>
    unfold cutBefore
    split
    · simp
    · rename_i h
      have hne : d ≠ c := by
        intro hdc
        apply h
        simp [List.isPrefixOf, hdc]
      simp only [List.mem_cons, not_or]
      exact ⟨fun hcd => hne hcd.symm, ih⟩

theorem cutBefore_single_of_not_mem (c : Char) (s : GoString) (h : c ∉ s) :
    cutBefore [c] s = s := by
  induction s with
  | nil => rfl
  | cons d ds ih =>
    simp only [List.mem_cons, not_or] at h
    unfold cutBefore
    rw [if_neg, ih h.2]
    simpa [List.isPrefixOf] using h.1

theorem cutBefore_single_append (c : Char) (before after : GoString) (h : c ∉ before) :
    cutBefore [c] (before ++ c :: after) = before := by
  induction before with
  | nil => simp [cutBefore, List.isPrefixOf]
  | cons d ds ih =>
    simp only [List.mem_cons, not_or] at h
    rw [List.cons_append]
    unfold cutBefore
    rw [if_neg, ih h.2]
    simpa [List.isPrefixOf] using h.1

theorem TrimSuffix_single_of_not_mem (c : Char) (s : GoString) (h : c ∉ s) :
    TrimSuffix s [c] = s := by
  apply TrimSuffix_of_not_suffix
  intro hs
  exact h (hs.subset (List.mem_singleton_self c))

theorem splitLines_no_lf (content : GoString) : ∀ line ∈ splitLines content, '\n' ∉ line := by
  induction content with
  | nil => simp [splitLines]
  | cons c cs ih =>
    unfold splitLines
    split
    · intro line hline
      rcases List.mem_cons.mp hline with h | h
      · simp [h]
      · exact ih line h
    · rename_i hc
      cases hsl : splitLines cs with
      | nil =>
        intro line hline
        simp only [List.mem_singleton] at hline
        subst hline
        simpa using Ne.symm hc
      | cons l ls =>
        rw [hsl] at ih
        intro line hline
        rcases List.mem_cons.mp hline with h | h
        · subst h
          have := ih l (List.mem_cons_self _ _)
          simp only [List.mem_cons, not_or]
          exact ⟨Ne.symm hc, this⟩
        · exact ih line (List.mem_cons_of_mem _ h)

theorem dropCR_subset (data : GoString) : dropCR data ⊆ data := by
  unfold dropCR
  split
  · exact ( List.dropLast_prefix data).subset
  · exact List.Subset.refl _

theorem ScanLines_no_lf (content : GoString) : ∀ line ∈ ScanLines content, '\n' ∉ line := by
  intro line hline
  unfold ScanLines at hline
  obtain ⟨l, hl, rfl⟩ := List.mem_map.mp hline
  exact fun h => splitLines_no_lf content l hl (dropCR_subset l h)

theorem splitLines_of_no_lf (line : GoString) (hne : line ≠ []) (h : '\n' ∉ line) :
    splitLines line = [line] := by
  induction line with
  | nil => exact absurd rfl hne
  | cons c cs ih =>
    simp only [List.mem_cons, not_or] at h
    unfold splitLines
    rw [if_neg (Ne.symm h.1)]
    cases cs with
    | nil => rfl
    | cons d ds => rw [ih (by simp) h.2]

/-! ## White space -/

theorem reSpace_IsSpace (c : Char) (h : reSpace c = true) : IsSpace c = true := by
  simp only [reSpace, Bool.or_eq_true, beq_iff_eq] at h
  rcases h with (((h | h) | h) | h) | h <;> subst h <;> decide

theorem not_reSpace_of_not_IsSpace (c : Char) (h : IsSpace c = false) : reSpace c = false := by
  cases hc : reSpace c
  · rfl
  · rw [reSpace_IsSpace c hc] at h
    exact absurd h (by decide)

theorem ne_space_of_not_reSpace (c : Char) (h : reSpace c = false) : c ≠ ' ' := by
  rintro rfl
  exact absurd h (by decide)

theorem trim_head (p : Char → Bool) (s : GoString) (c : Char)
    (h : ((s.dropWhile p).rdropWhile p).head? = some c) : p c = false := by
  have hpre : (s.dropWhile p).rdropWhile p <+: s.dropWhile p := List.rdropWhile_prefix p _
  obtain ⟨t, ht⟩ := hpre
  have hd : (s.dropWhile p).head? = some c := by
    rw [← ht]
    cases hr : (s.dropWhile p).rdropWhile p with
    | nil => rw [hr] at h; simp at h
    | cons x xs => rw [hr] at h; simpa using h
  have := List.head?_dropWhile_not p s
  rw [hd] at this
  exact this

theorem trim_last (p : Char → Bool) (s : GoString) (c : Char)
    (h : ((s.dropWhile p).rdropWhile p).getLast? = some c) : p c = false := by
  have hne : (s.dropWhile p).rdropWhile p ≠ [] := by
    intro h0
    rw [h0] at h
    simp at h
  have hlast := List.rdropWhile_last_not p (s.dropWhile p) hne
  rw [List.getLast?_eq_getLast _ hne] at h
  injection h with h
  rw [h] at hlast
  simpa using hlast

theorem trim_of_clean (p : Char → Bool) (s : GoString)
    (hh : ∀ c, s.head? = some c → p c = false)
    (hl : ∀ c, s.getLast? = some c → p c = false) :
    (s.dropWhile p).rdropWhile p = s := by
  have h1 : s.dropWhile p = s := by
    cases s with
    | nil => rfl
    | cons x xs =>
      have := hh x rfl
      simp [List.dropWhile_cons, this]
  rw [h1, List.rdropWhile_eq_self_iff]
  intro hne
  have := hl _ (List.getLast?_eq_getLast _ hne)
  simp [this]

theorem TrimSpace_part (s : GoString) : TrimSpace s <:+: s :=
  ( List.rdropWhile_prefix IsSpace _).isInfix.trans (List.dropWhile_suffix IsSpace).isInfix

/-! ## Replacement of the runs of white space -/

theorem replaceAllFrom_append_cons (repl l m : GoString) (c : Char) (hc : reSpace c = false)
    (b : Bool) :
    replaceAllFrom repl b (l ++ c :: m) = replaceAllFrom repl b l ++ c :: replaceAllFrom repl false m := by
  induction l generalizing b with
  | nil => simp [replaceAllFrom, hc]
  | cons x xs ih =>
    cases hx : reSpace x <;> cases b <;> simp [replaceAllFrom, hx, ih]

theorem replaceAllFrom_eq_nil (repl : GoString) (l : GoString)
    (h : replaceAllFrom repl false l = []) (hrepl : repl ≠ []) : l = [] := by
  cases l with
  | nil => rfl
  | cons x xs =>
    cases hx : reSpace x <;> simp [replaceAllFrom, hx, hrepl] at h

theorem mem_replaceAllFrom (l : GoString) (b : Bool) (c : Char)
    (h : c ∈ replaceAllFrom [' '] b l) : c = ' ' ∨ (c ∈ l ∧ reSpace c = false) := by
  induction l generalizing b with
  | nil => simp [replaceAllFrom] at h
  | cons x xs ih =>
    cases hx : reSpace x <;> cases b <;> simp only [replaceAllFrom, hx, if_true, if_false,
      Bool.false_eq_true, List.mem_cons, List.singleton_append] at h
    · rcases h with h | h
      · subst h; exact Or.inr ⟨List.mem_cons_self _ _, hx⟩
      · rcases ih _ h with h | h
        · exact Or.inl h
        · exact Or.inr ⟨List.mem_cons_of_mem _ h.1, h.2⟩
    · rcases h with h | h
      · subst h; exact Or.inr ⟨List.mem_cons_self _ _, hx⟩
      · rcases ih _ h with h | h
        · exact Or.inl h
        · exact Or.inr ⟨List.mem_cons_of_mem _ h.1, h.2⟩
    · rcases h with h | h
      · exact Or.inl h
      · rcases ih _ h with h | h
        · exact Or.inl h
        · exact Or.inr ⟨List.mem_cons_of_mem _ h.1, h.2⟩
    · rcases ih _ h with h | h
      · exact Or.inl h
      · exact Or.inr ⟨List.mem_cons_of_mem _ h.1, h.2⟩

theorem chain_space_replaceAllFrom (l : GoString) (b : Bool) (prev : Char)
    (h : b = false → prev ≠ ' ') :
    List.Chain (NotBoth ' ') prev (replaceAllFrom [' '] b l) := by
  induction l generalizing b prev with
  | nil => simp [replaceAllFrom]
  | cons x xs ih =>
    cases hx : reSpace x
    · simp only [replaceAllFrom, hx, if_false, Bool.false_eq_true, List.chain_cons]
      have hxs := ne_space_of_not_reSpace x hx
      exact ⟨fun hb => hxs hb.2, ih false x (fun _ => hxs)⟩
    · cases b
      · simp only [replaceAllFrom, hx, if_true, if_false, Bool.false_eq_true,
          List.singleton_append, List.chain_cons]
        exact ⟨fun hb => h rfl hb.1, ih true ' ' (fun hb => absurd hb (by decide))⟩
      · simp only [replaceAllFrom, hx, if_true]
        exact ih true prev (fun hb => absurd hb (by decide))

theorem chain_notBoth_of_ne (a x y : Char) (l : GoString) (_hx : x ≠ a)
    (h : List.Chain (NotBoth a) x l) (hy : y ≠ a) : List.Chain (NotBoth a) y l := by
  cases l with
  | nil => exact List.Chain.nil
  | cons z zs =>
    rw [List.chain_cons] at h ⊢
    exact ⟨fun hb => hy hb.1, h.2⟩

theorem chain_notBoth_replaceAllFrom (a : Char) (ha : reSpace a = false) (l : GoString)
    (b : Bool) (prev : Char) (hl : List.Chain (NotBoth a) prev l) (h : b = true → prev ≠ a) :
    List.Chain (NotBoth a) prev (replaceAllFrom [' '] b l) := by
  have hsp : (' ' : Char) ≠ a := fun h => (ne_space_of_not_reSpace a ha) h.symm
  induction l generalizing b prev with
  | nil => simp [replaceAllFrom]
  | cons x xs ih =>
    rw [List.chain_cons] at hl
    cases hx : reSpace x
    · simp only [replaceAllFrom, hx, if_false, Bool.false_eq_true, List.chain_cons]
      exact ⟨hl.1, ih false x hl.2 (fun hb => absurd hb (by decide))⟩
    · have hxa : x ≠ a := by
        rintro rfl
        rw [ha] at hx
        exact absurd hx (by decide)
      cases b
      · simp only [replaceAllFrom, hx, if_true, if_false, Bool.false_eq_true,
          List.singleton_append, List.chain_cons]
        exact ⟨fun hb => hsp hb.2,
          ih true ' ' (chain_notBoth_of_ne a x ' ' xs hxa hl.2 hsp) (fun _ => hsp)⟩
      · simp only [replaceAllFrom, hx, if_true]
        exact ih true prev (chain_notBoth_of_ne a x prev xs hxa hl.2 (h rfl)) h

theorem replaceAllFrom_fixed (l : GoString) (b : Bool)
    (hchars : ∀ c ∈ l, reSpace c = true → c = ' ')
    (hchain : List.Chain' (NotBoth ' ') l)
    (hhead : b = true → ∀ c, l.head? = some c → reSpace c = false) :
    replaceAllFrom [' '] b l = l := by
  induction l generalizing b with
  | nil => rfl
  | cons x xs ih =>
    have hxs : ∀ c ∈ xs, reSpace c = true → c = ' ' :=
      fun c hc => hchars c (List.mem_cons_of_mem _ hc)
    have hchain' : List.Chain' (NotBoth ' ') xs := hchain.tail
    cases hx : reSpace x
    · simp only [replaceAllFrom, hx, if_false, Bool.false_eq_true]
      rw [ih false hxs hchain' (fun hb => absurd hb (by decide))]
    · have hxsp : x = ' ' := hchars x (List.mem_cons_self _ _) hx
      cases b
      · simp only [replaceAllFrom, hx, if_true, if_false, Bool.false_eq_true,
          List.singleton_append]
        rw [ih true hxs hchain', hxsp]
        intro _ c hc
        cases hcs : reSpace c
        · rfl
        · exfalso
          cases xs with
          | nil => simp at hc
          | cons y ys =>
            simp only [List.head?_cons, Option.some.injEq] at hc
            subst hc
            have hy : y = ' ' := hxs y (List.mem_cons_self _ _) hcs
            rw [List.chain'_cons] at hchain
            exact hchain.1 ⟨hxsp, hy⟩
      · have := hhead rfl x rfl
        rw [hx] at this
        exact absurd this (by decide)

/-! ## One line -/

theorem chain'_cutBefore_pair (a : Char) (s : GoString) :
    List.Chain' (NotBoth a) (cutBefore [a, a] s) := by
  induction s with
  | nil => simp [cutBefore]
  | cons c cs ih =>
    unfold cutBefore
    split
    · exact List.chain'_nil
    · rename_i hpre
      rw [List.chain'_cons']
      refine ⟨?_, ih⟩
      intro y hy hb
      apply hpre
      obtain ⟨t, ht⟩ := cutBefore_initial [a, a] cs
      cases hcut : cutBefore [a, a] cs with
      | nil => rw [hcut] at hy; simp at hy
      | cons z zs =>
        rw [hcut] at hy ht
        simp only [List.head?_cons, Option.mem_def, Option.some.injEq] at hy
        subst hy
        rw [← ht, hb.1, hb.2]
        simp [List.isPrefixOf]

theorem cutBefore_pair_of_chain' (a : Char) (s : GoString)
    (h : List.Chain' (NotBoth a) s) : cutBefore [a, a] s = s := by
  induction s with
  | nil => rfl
  | cons c cs ih =>
    unfold cutBefore
    rw [if_neg, ih h.tail]
    intro hpre
    cases cs with
    | nil => simp [List.isPrefixOf] at hpre
    | cons d ds =>
      simp only [List.isPrefixOf, Bool.and_true, Bool.and_eq_true, beq_iff_eq] at hpre
      rw [List.chain'_cons] at h
      exact h.1 ⟨hpre.1.symm, hpre.2.symm⟩

theorem not_twice_of_chain' (a : Char) (l : GoString) (h : List.Chain' (NotBoth a) l) :
    ¬ [a, a] <:+: l := by
  intro hin
  have := List.Chain'.infix h hin
  rw [List.chain'_cons] at this
  exact this.1 ⟨rfl, rfl⟩

theorem normalizeLine_clean (line : GoString) :
    normalizeLine line = [] ∨ Clean (normalizeLine line) := by
  unfold normalizeLine spaceReplaceAllString
  generalize hu : cutBefore ";".toList (cutBefore "--".toList line) = u
  have hsemi : ';' ∉ u := by
    rw [← hu]
    exact cutBefore_single_not_mem ';' _
  have hdash : List.Chain' (NotBoth '-') u := by
    rw [← hu]
    exact List.Chain'.infix (chain'_cutBefore_pair '-' line) (cutBefore_initial _ _).isInfix
  have hpart : TrimSpace u <:+: u := TrimSpace_part u
  have hhead : ∀ c, (TrimSpace u).head? = some c → IsSpace c = false := trim_head IsSpace u
  have hlast : ∀ c, (TrimSpace u).getLast? = some c → IsSpace c = false := trim_last IsSpace u
  generalize TrimSpace u = t at hpart hhead hlast
  show replaceAllFrom [' '] false t = [] ∨ Clean (replaceAllFrom [' '] false t)
  cases ht : t with
  | nil => exact Or.inl rfl
  | cons x xs =>
    right
    rw [← ht]
    have htne : t ≠ [] := by rw [ht]; simp
    obtain ⟨t', c, htc⟩ : ∃ t' c, t = t' ++ [c] :=
      ⟨t.dropLast, t.getLast htne, (List.dropLast_append_getLast htne).symm⟩
    have hc : reSpace c = false :=
      not_reSpace_of_not_IsSpace c (hlast c (by rw [htc]; simp))
    have hx : reSpace x = false :=
      not_reSpace_of_not_IsSpace x (hhead x (by rw [ht]; rfl))
    refine ⟨?_, ?_, ?_, ?_, ?_, ?_, ?_⟩
    · intro h0
      exact htne (replaceAllFrom_eq_nil [' '] t h0 (by simp))
    · intro d hd
      rw [ht] at hd
      simp only [replaceAllFrom, hx, if_false, Bool.false_eq_true, List.head?_cons,
        Option.some.injEq] at hd
      subst hd
      exact hhead x (by rw [ht]; rfl)
    · intro d hd
      rw [htc, replaceAllFrom_append_cons [' '] t' [] c hc false] at hd
      change (replaceAllFrom [' '] false t' ++ [c]).getLast? = some d at hd
      rw [List.getLast?_concat, Option.some.injEq] at hd
      subst hd
      exact hlast c (by rw [htc]; simp)
    · intro d hd hsp
      rcases mem_replaceAllFrom t false d hd with h | h
      · exact h
      · rw [h.2] at hsp
        exact absurd hsp (by decide)
    · intro hmem
      rcases mem_replaceAllFrom t false ';' hmem with h | h
      · exact absurd h (by decide)
      · exact hsemi (hpart.subset h.1)
    · have h1 : List.Chain (NotBoth '-') ' ' t := by
        have : List.Chain' (NotBoth '-') (' ' :: t) := by
          rw [List.chain'_cons']
          exact ⟨fun y _ hb => absurd hb.1 (by decide), List.Chain'.infix hdash hpart⟩
        exact this
      have h2 := chain_notBoth_replaceAllFrom '-' (by decide) t false ' ' h1
        (fun hb => absurd hb (by decide))
      have h3 : List.Chain' (NotBoth '-') (' ' :: replaceAllFrom [' '] false t) := h2
      exact h3.tail
    · have h2 := chain_space_replaceAllFrom t false 'x' (fun _ => by decide)
      have h3 : List.Chain' (NotBoth ' ') ('x' :: replaceAllFrom [' '] false t) := h2
      exact h3.tail

theorem getSQLLine_eq (sql line : GoString) (h : '\n' ∉ line) :
    getSQLLine sql line =
      sql ++ (if normalizeLine line = [] then [] else normalizeLine line ++ [' ']) := by
  unfold getSQLLine normalizeLine spaceReplaceAllString
  have h0 : TrimSuffix line "\n".toList = line := TrimSuffix_single_of_not_mem '\n' line h
  simp only [h0]
  rw [headD_Split _ _ (by decide), headD_Split _ _ (by decide)]
  generalize hu : cutBefore ";".toList (cutBefore "--".toList line) = u
  have hlast : ∀ c, (TrimSpace u).getLast? = some c → IsSpace c = false := trim_last IsSpace u
  generalize TrimSpace u = t at hlast
  show (if t.length ≠ 0 then sql ++ replaceAllFrom [' '] false (t ++ [' ']) else sql) =
    sql ++ (if replaceAllFrom [' '] false t = [] then []
      else replaceAllFrom [' '] false t ++ [' '])
  by_cases htne : t = []
  · subst htne
    simp [replaceAllFrom]
  · have hlen : t.length ≠ 0 := fun h0 => htne (List.length_eq_zero.mp h0)
    have hrne : replaceAllFrom [' '] false t ≠ [] :=
      fun h0 => htne (replaceAllFrom_eq_nil [' '] t h0 (by simp))
    rw [if_pos hlen, if_neg hrne]
    obtain ⟨t', c, htc⟩ : ∃ t' c, t = t' ++ [c] :=
      ⟨t.dropLast, t.getLast htne, (List.dropLast_append_getLast htne).symm⟩
    have hc : reSpace c = false :=
      not_reSpace_of_not_IsSpace c (hlast c (by rw [htc]; simp))
    rw [htc, List.append_assoc, List.singleton_append,
      replaceAllFrom_append_cons [' '] t' [' '] c hc false,
      replaceAllFrom_append_cons [' '] t' [] c hc false]
    simp [replaceAllFrom, reSpace]

/-! ## A whole file -/

theorem foldl_getSQLLine (lines : List GoString) (sql : GoString)
    (h : ∀ line ∈ lines, '\n' ∉ line) :
    lines.foldl getSQLLine sql =
      sql ++ (((lines.map normalizeLine).filter (· ≠ [])).map (· ++ [' '])).flatten := by
  induction lines generalizing sql with
  | nil => simp
  | cons l ls ih =>
    rw [List.foldl_cons, ih _ (fun line hl => h line (List.mem_cons_of_mem _ hl)),
      getSQLLine_eq sql l (h l (List.mem_cons_self _ _)), List.map_cons, List.filter_cons]
    by_cases hn : normalizeLine l = []
    · simp [hn]
    · simp [hn]

theorem intercalate_cons_cons (sep p q : GoString) (rest : List GoString) :
    List.intercalate sep (p :: q :: rest) = p ++ sep ++ List.intercalate sep (q :: rest) := by
  simp [List.intercalate, List.intersperse]

theorem flatten_map_append (sep : GoString) (pieces : List GoString) (hne : pieces ≠ []) :
    (pieces.map (· ++ sep)).flatten = List.intercalate sep pieces ++ sep := by
  induction pieces with
  | nil => exact absurd rfl hne
  | cons p ps ih =>
    cases ps with
    | nil => simp [List.intercalate, List.intersperse]
    | cons q qs =>
      rw [List.map_cons, List.flatten_cons, ih (by simp), intercalate_cons_cons]
      simp [List.append_assoc]

theorem getSQLOfLines_eq (content : GoString) :
    getSQLOfLines (ScanLines content) =
      List.intercalate [' '] (((ScanLines content).map normalizeLine).filter (· ≠ [])) := by
  unfold getSQLOfLines
  rw [foldl_getSQLLine _ _ (ScanLines_no_lf content), List.nil_append]
  generalize ((ScanLines content).map normalizeLine).filter (· ≠ []) = pieces
  show TrimSuffix (pieces.map (· ++ [' '])).flatten [' '] = _
  by_cases hne : pieces = []
  · subst hne
    rfl
  · rw [flatten_map_append [' '] pieces hne, TrimSuffix_append]

theorem clean_join (a b : GoString) (ha : Clean a) (hb : Clean b) : Clean (a ++ ' ' :: b) := by
  have hane := ha.ne
  have hbne := hb.ne
  have hlastA : ∀ x ∈ a.getLast?, IsSpace x = false := fun x hx => ha.last x hx
  have hheadB : ∀ y ∈ b.head?, IsSpace y = false := fun y hy => hb.head y hy
  refine ⟨by simp, ?_, ?_, ?_, ?_, ?_, ?_⟩
  · intro c hc
    cases a with
    | nil => exact absurd rfl hane
    | cons x xs => exact ha.head c hc
  · intro c hc
    rw [List.getLast?_append_of_ne_nil _ (by simp)] at hc
    cases b with
    | nil => exact absurd rfl hbne
    | cons y ys =>
      rw [List.getLast?_cons_cons] at hc
      exact hb.last c hc
  · intro c hc hsp
    rcases List.mem_append.mp hc with h | h
    · exact ha.chars c h hsp
    · rcases List.mem_cons.mp h with h | h
      · exact h
      · exact hb.chars c h hsp
  · intro hmem
    rcases List.mem_append.mp hmem with h | h
    · exact ha.semi h
    · rcases List.mem_cons.mp h with h | h
      · exact absurd h (by decide)
      · exact hb.semi h
  · refine List.Chain'.append ha.dash ?_ ?_
    · rw [List.chain'_cons']
      exact ⟨fun y _ hy => absurd hy.1 (by decide), hb.dash⟩
    · intro x _ y hy hxy
      simp only [List.head?_cons, Option.mem_def, Option.some.injEq] at hy
      subst hy
      exact absurd hxy.2 (by decide)
  · refine List.Chain'.append ha.space ?_ ?_
    · rw [List.chain'_cons']
      refine ⟨fun y hy hxy => ?_, hb.space⟩
      have := hheadB y hy
      rw [hxy.2] at this
      exact absurd this (by decide)
    · intro x hx y _ hxy
      have := hlastA x hx
      rw [hxy.1] at this
      exact absurd this (by decide)

theorem intercalate_clean (pieces : List GoString) (h : ∀ p ∈ pieces, Clean p) :
    List.intercalate [' '] pieces = [] ∨ Clean (List.intercalate [' '] pieces) := by
  induction pieces with
  | nil => exact Or.inl rfl
  | cons p ps ih =>
    right
    cases ps with
    | nil =>
      have : List.intercalate [' '] [p] = p := by simp [List.intercalate, List.intersperse]
      rw [this]
      exact h p (List.mem_cons_self _ _)
    | cons q qs =>
      rw [intercalate_cons_cons, List.append_assoc, List.singleton_append]
      have hq : ∀ r ∈ q :: qs, Clean r := fun r hr => h r (List.mem_cons_of_mem _ hr)
      rcases ih hq with h0 | hc
      · exfalso
        cases qs with
        | nil =>
          have : List.intercalate [' '] [q] = q := by simp [List.intercalate, List.intersperse]
          rw [this] at h0
          exact (hq q (List.mem_cons_self _ _)).ne h0
        | cons r rs =>
          rw [intercalate_cons_cons] at h0
          simp at h0
      · exact clean_join p _ (h p (List.mem_cons_self _ _)) hc

theorem getSQLOfLines_clean (content : GoString) :
    getSQLOfLines (ScanLines content) = [] ∨ Clean (getSQLOfLines (ScanLines content)) := by
  rw [getSQLOfLines_eq]
  apply intercalate_clean
  intro p hp
  rw [List.mem_filter] at hp
  obtain ⟨line, _, rfl⟩ := List.mem_map.mp hp.1
  rcases normalizeLine_clean line with h | h
  · exact absurd h (of_decide_eq_true hp.2)
  · exact h

theorem normalizeLine_of_clean (r : GoString) (h : Clean r) : normalizeLine r = r := by
  unfold normalizeLine spaceReplaceAllString
  have h1 : cutBefore "--".toList r = r := cutBefore_pair_of_chain' '-' r h.dash
  have h2 : cutBefore ";".toList r = r := cutBefore_single_of_not_mem ';' r h.semi
  have h3 : TrimSpace r = r := trim_of_clean IsSpace r h.head h.last
  rw [h1, h2, h3]
  exact replaceAllFrom_fixed r false h.chars h.space (fun hb => absurd hb (by decide))

theorem ScanLines_of_clean (r : GoString) (h : Clean r) : ScanLines r = [r] := by
  have hlf : '\n' ∉ r := fun hm => absurd (h.chars '\n' hm (by decide)) (by decide)
  unfold ScanLines
  rw [splitLines_of_no_lf r h.ne hlf, List.map_cons, List.map_nil]
  unfold dropCR
  rw [if_neg]
  intro hcr
  exact absurd (h.last '\r' hcr) (by decide)

theorem getSQLOfLines_of_clean (r : GoString) (h : Clean r) :
    getSQLOfLines (ScanLines r) = r := by
  rw [getSQLOfLines_eq, ScanLines_of_clean r h, List.map_cons, List.map_nil,
    normalizeLine_of_clean r h, List.filter_cons, if_pos (decide_eq_true h.ne)]
  simp [List.intercalate, List.intersperse]

theorem cutBefore_of_absent (sep s : GoString) (h : ¬ sep <:+: s) : cutBefore sep s = s := by
  induction s with
  | nil => rfl
  | cons c cs ih =>
    unfold cutBefore
    rw [if_neg, ih (fun hin => h (hin.trans (List.suffix_cons c cs).isInfix))]
    intro hpre
    exact h ( List.isPrefixOf_iff_prefix.mp hpre).isInfix

/-! ## The scanner -/

theorem scanFrom_short (lines : List GoString)
    (h : ∀ line ∈ lines, byteLen line < MaxScanTokenSize) :
    scanFrom lines = (lines.map dropCR, none) := by
  induction lines with
  | nil => rfl
  | cons l ls ih =>
    have hl := h l (List.mem_cons_self _ _)
    rw [scanFrom, if_neg (by omega), ih (fun x hx => h x (List.mem_cons_of_mem _ hx))]
    rfl

theorem scanFrom_long (lines : List GoString)
    (h : ∃ line ∈ lines, MaxScanTokenSize ≤ byteLen line) :
    (scanFrom lines).2 = some ScanError.ErrTooLong := by
  induction lines with
  | nil =>
    obtain ⟨line, hline, _⟩ := h
    simp at hline
  | cons l ls ih =>
    rw [scanFrom]
    by_cases hl : MaxScanTokenSize ≤ byteLen l
    · rw [if_pos hl]
    · rw [if_neg hl]
      obtain ⟨line, hline, hlong⟩ := h
      rcases List.mem_cons.mp hline with h1 | h1
      · subst h1
        exact absurd hlong hl
      · exact ih ⟨line, h1, hlong⟩

theorem getSQL_of_short (content : GoString)
    (h : ∀ line ∈ splitLines content, byteLen line < MaxScanTokenSize) :
    getSQL content = some (getSQLOfLines (ScanLines content)) := by
  unfold getSQL Scan
  rw [scanFrom_short _ h]
  rfl

theorem getSQL_of_long (content : GoString)
    (h : ∃ line ∈ splitLines content, MaxScanTokenSize ≤ byteLen line) :
    getSQL content = none := by
  unfold getSQL Scan
  simp only [scanFrom_long _ h]

theorem getSQL_some (content sql : GoString) (h : getSQL content = some sql) :
    (∀ line ∈ splitLines content, byteLen line < MaxScanTokenSize) ∧
      sql = getSQLOfLines (ScanLines content) := by
  by_cases hs : ∀ line ∈ splitLines content, byteLen line < MaxScanTokenSize
  · rw [getSQL_of_short content hs] at h
    injection h with h
    exact ⟨hs, h.symm⟩
  · exfalso
    push_neg at hs
    rw [getSQL_of_long content hs] at h
    exact absurd h (by simp)

theorem getSQL_of_clean (r : GoString) (h : Clean r) :
    (byteLen r < MaxScanTokenSize → getSQL r = some r) ∧
      (MaxScanTokenSize ≤ byteLen r → getSQL r = none) := by
  have hlf : '\n' ∉ r := fun hm => absurd (h.chars '\n' hm (by decide)) (by decide)
  have hlines : splitLines r = [r] := splitLines_of_no_lf r h.ne hlf
  constructor
  · intro hshort
    rw [getSQL_of_short r (by rw [hlines]; simpa using hshort), getSQLOfLines_of_clean r h]
  · intro hlong
    exact getSQL_of_long r ⟨r, by rw [hlines]; simp, hlong⟩

theorem byteLen_replicate (n : Nat) : byteLen (List.replicate n 'a') = n := by
  induction n with
  | zero => rfl
  | succ k ih =>
    have h1 : Char.utf8Size 'a' = 1 := by decide
    unfold byteLen at ih ⊢
    rw [List.replicate_succ, List.map_cons, List.sum_cons, ih, h1]
    omega

theorem byteLen_append_cons (a b : GoString) (c : Char) :
    byteLen (a ++ c :: b) = byteLen a + (Char.utf8Size c + byteLen b) := by
  unfold byteLen
  rw [List.map_append, List.sum_append, List.map_cons, List.sum_cons]

theorem chain'_of_not_mem (x : Char) (l : GoString) (h : x ∉ l) :
    List.Chain' (NotBoth x) l := by
  induction l with
  | nil => exact List.chain'_nil
  | cons c cs ih =>
    simp only [List.mem_cons, not_or] at h
    rw [List.chain'_cons']
    exact ⟨fun y _ hb => h.1 hb.1.symm, ih h.2⟩

theorem clean_replicate (n : Nat) (hn : 0 < n) : Clean (List.replicate n 'a') := by
  have hmem : ∀ c ∈ List.replicate n 'a', c = 'a' := fun c hc => List.eq_of_mem_replicate hc
  refine ⟨?_, ?_, ?_, ?_, ?_, ?_, ?_⟩
  · intro h0
    have := congrArg List.length h0
    rw [List.length_replicate] at this
    simp at this
    omega
  · intro c hc
    rw [hmem c (List.mem_of_mem_head? hc)]
    decide
  · intro c hc
    rw [hmem c (List.mem_of_mem_getLast? hc)]
    decide
  · intro c hc hsp
    rw [hmem c hc] at hsp
    exact absurd hsp (by decide)
  · exact fun hm => absurd (hmem _ hm) (by decide)
  · exact chain'_of_not_mem '-' _ (fun hm => absurd (hmem _ hm) (by decide))
  · exact chain'_of_not_mem ' ' _ (fun hm => absurd (hmem _ hm) (by decide))

theorem splitLines_append_lf (l rest : GoString) (h : '\n' ∉ l) :
    splitLines (l ++ '\n' :: rest) = l :: splitLines rest := by
  induction l with
  | nil => simp [splitLines]
  | cons c cs ih =>
    simp only [List.mem_cons, not_or] at h
    rw [List.cons_append, splitLines, if_neg (Ne.symm h.1), ih h.2]

theorem getSQL_long_line (n : Nat) (hn : MaxScanTokenSize ≤ n) :
    getSQL (List.replicate n 'a') = none := by
  have hpos : 0 < n := by unfold MaxScanTokenSize at hn; omega
  refine (getSQL_of_clean _ (clean_replicate n hpos)).2 ?_
  rw [byteLen_replicate]
  exact hn

theorem getSQL_two_lines (n : Nat) (hpos : 0 < n) (hn : n < MaxScanTokenSize) :
    getSQL (List.replicate n 'a' ++ '\n' :: List.replicate n 'a') =
      some (List.replicate n 'a' ++ ' ' :: List.replicate n 'a') := by
  have hc := clean_replicate n hpos
  have hlf : '\n' ∉ List.replicate n 'a' :=
    fun hm => absurd (hc.chars '\n' hm (by decide)) (by decide)
  have hlines : splitLines (List.replicate n 'a' ++ '\n' :: List.replicate n 'a') =
      [List.replicate n 'a', List.replicate n 'a'] := by
    rw [splitLines_append_lf _ _ hlf, splitLines_of_no_lf _ hc.ne hlf]
  have hscan : ScanLines (List.replicate n 'a' ++ '\n' :: List.replicate n 'a') =
      [List.replicate n 'a', List.replicate n 'a'] := by
    have h1 := ScanLines_of_clean _ hc
    unfold ScanLines at h1 ⊢
    rw [splitLines_of_no_lf _ hc.ne hlf, List.map_cons, List.map_nil, List.cons.injEq] at h1
    rw [hlines, List.map_cons, List.map_cons, List.map_nil, h1.1]
  have hshort : ∀ line ∈ splitLines (List.replicate n 'a' ++ '\n' :: List.replicate n 'a'),
      byteLen line < MaxScanTokenSize := by
    rw [hlines]
    intro line hline
    have : line = List.replicate n 'a' := by
      rcases List.mem_cons.mp hline with h | h
      · exact h
      · exact List.mem_singleton.mp h
    rw [this, byteLen_replicate]
    exact hn
  rw [getSQL_of_short _ hshort, getSQLOfLines_eq, hscan, List.map_cons, List.map_cons,
    List.map_nil, normalizeLine_of_clean _ hc, List.filter_cons, if_pos (decide_eq_true hc.ne),
    List.filter_cons, if_pos (decide_eq_true hc.ne), List.filter_nil]
  simp [List.intercalate, List.intersperse]

/-! ## The claims on `getSQL` -/

set_option maxRecDepth 100000 in
theorem getSQL_sample :
    getSQL "SELECT *\n  FROM t -- comment\n;".toList = some "SELECT * FROM t".toList := by
  decide

/-- C3 (amended): for a file whose lines are each shorter than 65536 bytes, `getSQL` returns
the non-empty normalised lines of the file joined by single spaces, where a line is
normalised by cutting it at its `--` marker, cutting it at its first semicolon, trimming the
surrounding white space (`strings.TrimSpace`) and replacing every run of characters of the
class `\s` (tab, line feed, form feed, carriage return, space) by one space; lines that
normalise to the empty text contribute nothing and the text returned does not end in a
space. For a file with a line of 65536 bytes or more `getSQL` panics. The input
`"SELECT *\n  FROM t -- comment\n;"` yields `"SELECT * FROM t"`. -/
theorem getSQL_spec (content : GoString) :
    ((∀ line ∈ splitLines content, byteLen line < MaxScanTokenSize) →
        getSQL content =
          some (List.intercalate " ".toList
            (((ScanLines content).map fun line =>
              spaceReplaceAllString
                (TrimSpace (cutBefore ";".toList (cutBefore "--".toList line)))
                " ".toList).filter
              (· ≠ [])))) ∧
      ((∃ line ∈ splitLines content, MaxScanTokenSize ≤ byteLen line) →
        getSQL content = none) ∧
      (∀ sql, getSQL content = some sql → sql.getLast? ≠ some ' ') ∧
      getSQL "SELECT *\n  FROM t -- comment\n;".toList = some "SELECT * FROM t".toList := by
  refine ⟨?_, getSQL_of_long content, ?_, getSQL_sample⟩
  · intro hshort
    rw [getSQL_of_short content hshort, getSQLOfLines_eq]
    rfl
  · intro sql hsql hlast
    rw [(getSQL_some content sql hsql).2] at hlast
    rcases getSQLOfLines_clean content with h | h
    · rw [h] at hlast
      simp at hlast
    · exact absurd (h.last ' ' hlast) (by decide)

set_option maxRecDepth 100000 in
/-- C3 (counterexample): for the file `SELECT 1; SELECT 2;` the claim's normalisation, which
removes the trailing semicolon of the line, gives `SELECT 1; SELECT 2`, and `getSQL`
returns `SELECT 1`. A run of two vertical tabs inside a line is white space that is not
replaced by one space, and on a line of 65536 bytes `getSQL` returns nothing. -/
theorem getSQL_trailing_semicolon_counterexample :
    getSQL "SELECT 1; SELECT 2;".toList = some "SELECT 1".toList ∧
      List.intercalate " ".toList
          (((ScanLines "SELECT 1; SELECT 2;".toList).map normalizeLineTrailing).filter
            (· ≠ [])) = "SELECT 1; SELECT 2".toList ∧
      getSQL "SELECT 1; SELECT 2;".toList ≠
        some (List.intercalate " ".toList
          (((ScanLines "SELECT 1; SELECT 2;".toList).map normalizeLineTrailing).filter
            (· ≠ []))) ∧
      getSQL "a\x0b\x0bb".toList = some "a\x0b\x0bb".toList ∧
      getSQL (List.replicate 65536 'a') = none :=
  ⟨by decide, by decide, by decide, by decide, getSQL_long_line 65536 (by decide)⟩

/-- C9 (amended): for a single line without `--`, the per-line step of `getSQL` keeps the text
in front of the first semicolon of the line, trimmed and with its runs of white space
replaced by one space, and drops the rest: of a line `before ++ ";" ++ after` whose part
`before` holds no semicolon, `before` is what is kept, so a semicolon that ends the line is
removed and the text that follows a semicolon inside the line is removed with it. -/
theorem getSQLLine_cut_at_first_semicolon (sql line : GoString) (hline : '\n' ∉ line)
    (hdash : ¬ "--".toList <:+: line) :
    getSQLLine sql line =
        sql ++
          (if spaceReplaceAllString (TrimSpace (cutBefore ";".toList line)) " ".toList = []
          then []
          else spaceReplaceAllString (TrimSpace (cutBefore ";".toList line)) " ".toList ++
            " ".toList) ∧
      (∀ before after : GoString, line = before ++ ";".toList ++ after → ';' ∉ before →
        cutBefore ";".toList line = before) ∧
      (';' ∉ line → cutBefore ";".toList line = line) := by
  refine ⟨?_, ?_, fun h => cutBefore_single_of_not_mem ';' line h⟩
  · have := getSQLLine_eq sql line hline
    unfold normalizeLine at this
    rw [cutBefore_of_absent _ _ hdash] at this
    exact this
  · intro before after hl hb
    rw [hl, List.append_assoc]
    exact cutBefore_single_append ';' before after hb

set_option maxRecDepth 100000 in
/-- Witness of C9 on the line `SELECT 1; SELECT 2`. -/
theorem getSQLLine_cut_at_first_semicolon_witness :
    ('\n' ∉ "SELECT 1; SELECT 2".toList ∧ ¬ "--".toList <:+: "SELECT 1; SELECT 2".toList) ∧
      getSQLLine [] "SELECT 1; SELECT 2".toList = "SELECT 1 ".toList :=
  ⟨⟨by decide, by decide⟩,
    (getSQLLine_cut_at_first_semicolon [] "SELECT 1; SELECT 2".toList (by decide)
      (by decide)).1.trans (by decide)⟩

set_option maxRecDepth 100000 in
/-- C9 (counterexample): the line `SELECT ';' FROM t` holds no `--`; removing only a
semicolon at its end would keep all of it, and the per-line step of `getSQL` keeps
`SELECT '` only. -/
theorem getSQLLine_mid_semicolon_counterexample :
    ¬ "--".toList <:+: "SELECT ';' FROM t".toList ∧
      normalizeLineTrailing "SELECT ';' FROM t".toList = "SELECT ';' FROM t".toList ∧
      getSQLLine [] "SELECT ';' FROM t".toList = "SELECT ' ".toList ∧
      getSQL "SELECT ';' FROM t".toList = some "SELECT '".toList := by
  decide

/-- C10 (amended): a text that `getSQL` returns holds no line feed, no carriage return, no
semicolon, no `--`, no two spaces in a row, and has no white space at its start or at its
end; `getSQL` applied to a file holding that text returns the text when the text is shorter
than 65536 bytes, and panics when it is not. -/
theorem getSQL_single_line_value (content sql : GoString) (h : getSQL content = some sql) :
    '\n' ∉ sql ∧ '\r' ∉ sql ∧ ';' ∉ sql ∧
      ¬ "--".toList <:+: sql ∧ ¬ "  ".toList <:+: sql ∧
      (∀ c, sql.head? = some c → IsSpace c = false) ∧
      (∀ c, sql.getLast? = some c → IsSpace c = false) ∧
      (byteLen sql < MaxScanTokenSize → getSQL sql = some sql) ∧
      (MaxScanTokenSize ≤ byteLen sql → getSQL sql = none) := by
  have hsql := (getSQL_some content sql h).2
  have hclean := getSQLOfLines_clean content
  rw [← hsql] at hclean
  rcases hclean with h0 | hc
  · rw [h0]
    refine ⟨by simp, by simp, by simp, ?_, ?_, by simp, by simp, fun _ => by decide, ?_⟩
    · intro hin
      have := List.eq_nil_of_infix_nil hin
      exact absurd this (by decide)
    · intro hin
      have := List.eq_nil_of_infix_nil hin
      exact absurd this (by decide)
    · intro hlong
      exact absurd hlong (by decide)
  · refine ⟨?_, ?_, hc.semi, not_twice_of_chain' '-' _ hc.dash,
      not_twice_of_chain' ' ' _ hc.space, hc.head, hc.last, (getSQL_of_clean _ hc).1,
      (getSQL_of_clean _ hc).2⟩
    · exact fun hm => absurd (hc.chars '\n' hm (by decide)) (by decide)
    · exact fun hm => absurd (hc.chars '\r' hm (by decide)) (by decide)

set_option maxRecDepth 100000 in
/-- Witness of C10 on the file `"SELECT *\n  FROM t -- comment\n;"`. -/
theorem getSQL_single_line_value_witness :
    getSQL "SELECT *\n  FROM t -- comment\n;".toList = some "SELECT * FROM t".toList ∧
      getSQL "SELECT * FROM t".toList = some "SELECT * FROM t".toList :=
  ⟨getSQL_sample,
    (getSQL_single_line_value _ _ getSQL_sample).2.2.2.2.2.2.2.1 (by decide)⟩

/-- C10 (counterexample): for the file of two lines of 40000 letters `a`, `getSQL` returns the
two lines joined by a space, a text of 80001 bytes, and `getSQL` applied to a file holding
that text does not give it back: it panics. -/
theorem getSQL_idempotent_counterexample :
    getSQL (List.replicate 40000 'a' ++ '\n' :: List.replicate 40000 'a') =
        some (List.replicate 40000 'a' ++ ' ' :: List.replicate 40000 'a') ∧
      getSQL (List.replicate 40000 'a' ++ ' ' :: List.replicate 40000 'a') = none := by
  constructor
  · exact getSQL_two_lines 40000 (by decide) (by decide)
  · refine (getSQL_of_clean _ (clean_join _ _ (clean_replicate 40000 (by decide))
      (clean_replicate 40000 (by decide)))).2 ?_
    rw [byteLen_append_cons, byteLen_replicate]
    have h1 : Char.utf8Size ' ' = 1 := by decide
    rw [h1]
    decide

/-! ## Walking a tree without a match -/

theorem Node.induction {P : Node → Prop}
    (h : ∀ kind value content, (∀ n ∈ content, P n) → P (.mk kind value content)) :
    ∀ n, P n := by
  intro n
  refine Node.rec (motive_1 := P) (motive_2 := fun l => ∀ n ∈ l, P n) ?_ ?_ ?_ n
  · intro kind value content ih
    exact h kind value content ih
  · intro n hn
    simp at hn
  · intro head tail hh ht n hn
    rcases List.mem_cons.mp hn with h1 | h1
    · subst h1; exact hh
    · exact ht n h1

theorem pairs_induction {P : List Node → Prop} (nil : P []) (single : ∀ a, P [a])
    (cons2 : ∀ a b l, P l → P (a :: b :: l)) : ∀ l, P l
  | [] => nil
  | [a] => single a
  | a :: b :: l => cons2 a b l (pairs_induction nil single cons2 l)

theorem nodes_mk (kind : Kind) (value : GoString) (content : List Node) :
    (Node.mk kind value content).nodes = Node.mk kind value content :: nodesOfList content := by
  simp [Node.nodes]

theorem nodesOfList_cons (n : Node) (ns : List Node) :
    nodesOfList (n :: ns) = n.nodes ++ nodesOfList ns := by
  simp [nodesOfList]

theorem mem_nodes_self (n : Node) : n ∈ n.nodes := by
  cases n with
  | mk kind value content => rw [nodes_mk]; exact List.mem_cons_self _ _

theorem mem_nodesOfList (l : List Node) (n x : Node) (hn : n ∈ l) (hx : x ∈ n.nodes) :
    x ∈ nodesOfList l := by
  induction l with
  | nil => simp at hn
  | cons a as ih =>
    rw [nodesOfList_cons, List.mem_append]
    rcases List.mem_cons.mp hn with h | h
    · subst h; exact Or.inl hx
    · exact Or.inr (ih h)

theorem mappingValues_subset : ∀ l : List Node, mappingValues l ⊆ l
  | [] => by simp [mappingValues]
  | [_] => by simp [mappingValues]
  | a :: b :: l => by
    intro x hx
    simp only [mappingValues, List.mem_cons] at hx
    rcases hx with h | h
    · subst h; simp
    · exact List.mem_cons_of_mem _ (List.mem_cons_of_mem _ (mappingValues_subset l h))

theorem appendValues_eq (QueryIds : List GoString) (items : List Node) :
    appendValues QueryIds items = QueryIds ++ items.map Node.Value := by
  unfold appendValues
  induction items generalizing QueryIds with
  | nil => simp
  | cons i is ih => simp [ih]

theorem descendItems_noMatch (CaseId : GoString) (l : List Node)
    (ih : ∀ n ∈ l, ∀ ids, (∀ m ∈ n.nodes, m.Kind = Kind.MappingNode → m.Content.length % 2 = 0) →
      (∀ m ∈ n.nodes, m.isMatch CaseId = false) →
      descend CaseId n ids = some (ids, rootError n))
    (ids : List GoString)
    (hwf : ∀ m ∈ nodesOfList l, m.Kind = Kind.MappingNode → m.Content.length % 2 = 0)
    (hno : ∀ m ∈ nodesOfList l, m.isMatch CaseId = false) :
    descendItems CaseId l ids = some ids := by
  induction l with
  | nil => simp [descendItems]
  | cons n ns ihl =>
    rw [nodesOfList_cons] at hwf hno
    rw [descendItems, ih n (List.mem_cons_self _ _) ids
      (fun m hm => hwf m (List.mem_append_left _ hm))
      (fun m hm => hno m (List.mem_append_left _ hm))]
    exact ihl (fun k hk => ih k (List.mem_cons_of_mem _ hk))
      (fun m hm => hwf m (List.mem_append_right _ hm))
      (fun m hm => hno m (List.mem_append_right _ hm))

theorem descendPairs_noMatch (CaseId : GoString) (l : List Node) :
    (∀ n ∈ l, ∀ ids, (∀ m ∈ n.nodes, m.Kind = Kind.MappingNode → m.Content.length % 2 = 0) →
      (∀ m ∈ n.nodes, m.isMatch CaseId = false) →
      descend CaseId n ids = some (ids, rootError n)) →
    ∀ ids : List GoString, l.length % 2 = 0 →
    (∀ m ∈ nodesOfList l, m.Kind = Kind.MappingNode → m.Content.length % 2 = 0) →
    (∀ m ∈ nodesOfList l, m.isMatch CaseId = false) →
    hasId CaseId l = false →
    descendPairs CaseId l ids =
      some (ids, if idValuesScalar l then IdScan.notFound else IdScan.failed Error.nonScalarTask) := by
  induction l using pairs_induction with
  | nil => intro _ ids _ _ _ _; simp [descendPairs, idValuesScalar]
  | single a => intro _ ids hlen; simp at hlen
  | cons2 key value rest ihl =>
    intro ih ids hlen hwf hno hid
    rw [nodesOfList_cons, nodesOfList_cons] at hwf hno
    have hrest := ihl (fun k hk => ih k (List.mem_cons_of_mem _ (List.mem_cons_of_mem _ hk))) ids
      (by simp only [List.length_cons] at hlen; omega)
      (fun m hm => hwf m (List.mem_append_right _ (List.mem_append_right _ hm)))
      (fun m hm => hno m (List.mem_append_right _ (List.mem_append_right _ hm)))
    simp only [hasId, Bool.or_eq_false_iff] at hid
    rw [descendPairs]
    cases hk : isKey "id".toList key <;> have hk' : isKey ['i', 'd'] key = _ := hk
    · simp only [Bool.not_false, if_true]
      rw [ih value (by simp) ids
        (fun m hm => hwf m (List.mem_append_right _ (List.mem_append_left _ hm)))
        (fun m hm => hno m (List.mem_append_right _ (List.mem_append_left _ hm)))]
      simp only [hrest hid.2, idValuesScalar, hk, Bool.not_false, Bool.true_or, Bool.true_and]
    · simp only [Bool.not_true, Bool.false_eq_true, if_false]
      by_cases hs : value.Kind = Kind.ScalarNode
      · have hne : value.Value ≠ CaseId := by
          intro hv
          have := hid.1
          simp [hk, hk', hs, hv] at this
        simp only [hs, ne_eq, not_true_eq_false, if_false, hne, hrest hid.2, idValuesScalar, hk,
          Bool.not_true, Bool.false_or, beq_self_eq_true, Bool.true_and]
      · simp [hs, idValuesScalar, hk, hk']

theorem descend_noMatch (CaseId : GoString) :
    ∀ n : Node, ∀ ids, (∀ m ∈ n.nodes, m.Kind = Kind.MappingNode → m.Content.length % 2 = 0) →
      (∀ m ∈ n.nodes, m.isMatch CaseId = false) →
      descend CaseId n ids = some (ids, rootError n) := by
  intro n
  induction n using Node.induction with
  | h kind value content ih =>
    intro ids hwf hno
    rw [nodes_mk] at hwf hno
    have hwf' : ∀ m ∈ nodesOfList content, m.Kind = Kind.MappingNode → m.Content.length % 2 = 0 :=
      fun m hm => hwf m (List.mem_cons_of_mem _ hm)
    have hno' : ∀ m ∈ nodesOfList content, m.isMatch CaseId = false :=
      fun m hm => hno m (List.mem_cons_of_mem _ hm)
    cases kind with
    | SequenceNode =>
      rw [descend, descendItems_noMatch CaseId content ih ids hwf' hno']
      simp [rootError, Node.Kind]
    | MappingNode =>
      have hself := hno _ (List.mem_cons_self _ _)
      have hlen := hwf _ (List.mem_cons_self _ _) rfl
      simp only [Node.isMatch, Node.Kind, Node.Content, beq_self_eq_true, Bool.true_and] at hself
      rw [descend, descendPairs_noMatch CaseId content ih ids hlen hwf' hno' hself]
      cases hs : idValuesScalar content <;> simp [rootError, Node.Kind, Node.Content, hs]
    | DocumentNode => simp [descend, rootError, Node.Kind]
    | ScalarNode => simp [descend, rootError, Node.Kind]
    | AliasNode => simp [descend, rootError, Node.Kind]

/-! ## Walking a tree with one match -/

theorem collectSkipNumbers_none (l : List Node) :
    ∀ ids : List GoString, l.length % 2 = 0 → valuesOfKey "skip_numbers".toList l = [] →
    collectSkipNumbers l ids = some (ids, none) := by
  induction l using pairs_induction with
  | nil => intro ids _ _; simp [collectSkipNumbers]
  | single a => intro ids hlen; simp at hlen
  | cons2 key value rest ihl =>
    intro ids hlen hv
    rw [collectSkipNumbers]
    rw [valuesOfKey] at hv
    cases hk : isKey "skip_numbers".toList key
    · rw [hk] at hv
      simp only [Bool.not_false, if_true]
      exact ihl ids (by simp only [List.length_cons] at hlen; omega) (by simpa using hv)
    · rw [hk] at hv
      simp at hv

theorem collectSkipNumbers_one (sv : GoString) (items : List Node) (l : List Node) :
    ∀ ids : List GoString, l.length % 2 = 0 →
    valuesOfKey "skip_numbers".toList l = [Node.mk Kind.SequenceNode sv items] →
    collectSkipNumbers l ids = some (ids ++ items.map Node.Value, none) := by
  induction l using pairs_induction with
  | nil => intro ids _ hv; simp [valuesOfKey] at hv
  | single a => intro ids hlen; simp at hlen
  | cons2 key value rest ihl =>
    intro ids hlen hv
    have hlen' : rest.length % 2 = 0 := by simp only [List.length_cons] at hlen; omega
    rw [collectSkipNumbers]
    rw [valuesOfKey] at hv
    cases hk : isKey "skip_numbers".toList key
    · rw [hk] at hv
      simp only [Bool.not_false, if_true]
      exact ihl ids hlen' (by simpa using hv)
    · rw [hk] at hv
      simp only [if_true, List.cons.injEq] at hv
      obtain ⟨hval, hrest⟩ := hv
      subst hval
      simp only [Bool.not_true, Bool.false_eq_true, if_false, Node.Kind, ne_eq,
        not_true_eq_false, Node.Content]
      rw [collectSkipNumbers_none rest _ hlen' hrest, appendValues_eq]

theorem descendPairs_found (CaseId : GoString) (l : List Node) :
    ∀ ids : List GoString, l.length % 2 = 0 →
    (∀ m ∈ nodesOfList l, m.Kind = Kind.MappingNode → m.Content.length % 2 = 0) →
    (∀ m ∈ nodesOfList l, m.isMatch CaseId = false) →
    idValuesScalar l = true → hasId CaseId l = true →
    descendPairs CaseId l ids = some (ids, IdScan.found) := by
  induction l using pairs_induction with
  | nil => intro ids _ _ _ _ hid; simp [hasId] at hid
  | single a => intro ids hlen; simp at hlen
  | cons2 key value rest ihl =>
    intro ids hlen hwf hno hsc hid
    rw [nodesOfList_cons, nodesOfList_cons] at hwf hno
    have hrest := ihl ids (by simp only [List.length_cons] at hlen; omega)
      (fun m hm => hwf m (List.mem_append_right _ (List.mem_append_right _ hm)))
      (fun m hm => hno m (List.mem_append_right _ (List.mem_append_right _ hm)))
    rw [idValuesScalar, Bool.and_eq_true] at hsc
    rw [hasId, Bool.or_eq_true] at hid
    rw [descendPairs]
    cases hk : isKey "id".toList key
    · simp only [Bool.not_false, if_true]
      rw [descend_noMatch CaseId value ids
        (fun m hm => hwf m (List.mem_append_right _ (List.mem_append_left _ hm)))
        (fun m hm => hno m (List.mem_append_right _ (List.mem_append_left _ hm)))]
      rw [hk] at hid
      exact hrest hsc.2 (by simpa using hid)
    · simp only [Bool.not_true, Bool.false_eq_true, if_false]
      rw [hk] at hsc hid
      have hs : value.Kind = Kind.ScalarNode := by simpa using hsc.1
      by_cases hv : value.Value = CaseId
      · simp [hs, hv]
      · simp only [hs, ne_eq, not_true_eq_false, if_false, hv]
        refine hrest hsc.2 ?_
        rcases hid with h | h
        · simp [hs, hv] at h
        · exact h

theorem reaches_mem (n target : Node) (h : Reaches n target) : target ∈ n.nodes := by
  induction h with
  | here n => exact mem_nodes_self n
  | inSequence value content item target hitem _ ih =>
    rw [nodes_mk]
    exact List.mem_cons_of_mem _ (mem_nodesOfList content item target hitem ih)
  | inMapping value content child target hchild _ ih =>
    rw [nodes_mk]
    exact List.mem_cons_of_mem _
      (mem_nodesOfList content child target (mappingValues_subset content hchild) ih)

theorem reaches_count_pos (CaseId : GoString) (n target : Node) (h : Reaches n target)
    (ht : target.isMatch CaseId = true) : 0 < List.countP (Node.isMatch CaseId) n.nodes :=
  List.countP_pos_iff.mpr ⟨target, reaches_mem n target h, ht⟩

theorem noMatch_of_count (CaseId : GoString) (l : List Node)
    (h : List.countP (Node.isMatch CaseId) l = 0) : ∀ m ∈ l, m.isMatch CaseId = false := by
  intro m hm
  have := List.countP_eq_zero.mp h m hm
  simpa using this

theorem descendItems_oneMatch (CaseId : GoString) (target : Node) (vals : List GoString)
    (ht : target.isMatch CaseId = true) (l : List Node)
    (ih : ∀ n ∈ l, ∀ ids,
      (∀ m ∈ n.nodes, m.Kind = Kind.MappingNode → m.Content.length % 2 = 0) →
      (∀ m ∈ n.nodes, m.Kind = Kind.MappingNode → idValuesScalar m.Content = true) →
      List.countP (Node.isMatch CaseId) n.nodes = 1 → Reaches n target →
      descend CaseId n ids = some (ids ++ vals, none))
    (ids : List GoString)
    (hwf : ∀ m ∈ nodesOfList l, m.Kind = Kind.MappingNode → m.Content.length % 2 = 0)
    (hsc : ∀ m ∈ nodesOfList l, m.Kind = Kind.MappingNode → idValuesScalar m.Content = true)
    (hcount : List.countP (Node.isMatch CaseId) (nodesOfList l) = 1)
    (hreach : ∃ item ∈ l, Reaches item target) :
    descendItems CaseId l ids = some (ids ++ vals) := by
  induction l generalizing ids with
  | nil => obtain ⟨item, hitem, _⟩ := hreach; simp at hitem
  | cons n ns ihl =>
    rw [nodesOfList_cons] at hwf hsc hcount
    rw [List.countP_append] at hcount
    have hwfn := fun m hm => hwf m (List.mem_append_left _ hm)
    have hwfs := fun m hm => hwf m (List.mem_append_right _ hm)
    obtain ⟨item, hitem, hr⟩ := hreach
    have hpos := reaches_count_pos CaseId item target hr ht
    rw [descendItems]
    by_cases hc : List.countP (Node.isMatch CaseId) n.nodes = 0
    · rw [descend_noMatch CaseId n ids hwfn (noMatch_of_count CaseId _ hc)]
      rcases List.mem_cons.mp hitem with h | h
      · subst h; omega
      · exact ihl (fun k hk => ih k (List.mem_cons_of_mem _ hk)) ids hwfs
          (fun m hm => hsc m (List.mem_append_right _ hm)) (by omega) ⟨item, h, hr⟩
    · have hrest0 : List.countP (Node.isMatch CaseId) (nodesOfList ns) = 0 := by omega
      rcases List.mem_cons.mp hitem with h | h
      · subst h
        rw [ih item (List.mem_cons_self _ _) ids hwfn
          (fun m hm => hsc m (List.mem_append_left _ hm)) (by omega) hr]
        exact descendItems_noMatch CaseId ns
          (fun k _ ids' h1 h2 => descend_noMatch CaseId k ids' h1 h2) _ hwfs
          (noMatch_of_count CaseId _ hrest0)
      · have := List.countP_pos_iff.mpr ⟨target, mem_nodesOfList ns item target h
          (reaches_mem item target hr), ht⟩
        omega

theorem descendPairs_oneMatch (CaseId : GoString) (target : Node) (vals : List GoString)
    (ht : target.isMatch CaseId = true) (l : List Node) :
    (∀ n ∈ l, ∀ ids,
      (∀ m ∈ n.nodes, m.Kind = Kind.MappingNode → m.Content.length % 2 = 0) →
      (∀ m ∈ n.nodes, m.Kind = Kind.MappingNode → idValuesScalar m.Content = true) →
      List.countP (Node.isMatch CaseId) n.nodes = 1 → Reaches n target →
      descend CaseId n ids = some (ids ++ vals, none)) →
    ∀ ids : List GoString, l.length % 2 = 0 →
    (∀ m ∈ nodesOfList l, m.Kind = Kind.MappingNode → m.Content.length % 2 = 0) →
    (∀ m ∈ nodesOfList l, m.Kind = Kind.MappingNode → idValuesScalar m.Content = true) →
    idValuesScalar l = true → hasId CaseId l = false →
    List.countP (Node.isMatch CaseId) (nodesOfList l) = 1 →
    (∃ child ∈ mappingValues l, Reaches child target) →
    descendPairs CaseId l ids = some (ids ++ vals, IdScan.notFound) := by
  induction l using pairs_induction with
  | nil =>
    intro _ ids _ _ _ _ _ _ hreach
    obtain ⟨child, hchild, _⟩ := hreach
    simp [mappingValues] at hchild
  | single a => intro _ ids hlen; simp at hlen
  | cons2 key value rest ihl =>
    intro ih ids hlen hwf hsc hscl hid hcount hreach
    have hlen' : rest.length % 2 = 0 := by simp only [List.length_cons] at hlen; omega
    rw [nodesOfList_cons, nodesOfList_cons] at hwf hsc hcount
    rw [List.countP_append, List.countP_append] at hcount
    have hwfv := fun m hm => hwf m (List.mem_append_right _ (List.mem_append_left _ hm))
    have hwfs := fun m hm => hwf m (List.mem_append_right _ (List.mem_append_right _ hm))
    have hscv := fun m hm => hsc m (List.mem_append_right _ (List.mem_append_left _ hm))
    have hscs := fun m hm => hsc m (List.mem_append_right _ (List.mem_append_right _ hm))
    rw [idValuesScalar, Bool.and_eq_true] at hscl
    simp only [hasId, Bool.or_eq_false_iff] at hid
    have hrest := ihl (fun k hk => ih k (List.mem_cons_of_mem _ (List.mem_cons_of_mem _ hk)))
    obtain ⟨child, hchild, hr⟩ := hreach
    have hpos := reaches_count_pos CaseId child target hr ht
    simp only [mappingValues, List.mem_cons] at hchild
    have hrestpos : child ∈ mappingValues rest →
        0 < List.countP (Node.isMatch CaseId) (nodesOfList rest) := fun h =>
      List.countP_pos_iff.mpr ⟨target, mem_nodesOfList rest child target
        (mappingValues_subset rest h) (reaches_mem child target hr), ht⟩
    have hnoRest : List.countP (Node.isMatch CaseId) (nodesOfList rest) = 0 →
        descendPairs CaseId rest (ids ++ vals) = some (ids ++ vals, IdScan.notFound) := by
      intro h0
      have := descendPairs_noMatch CaseId rest
        (fun k _ ids' h1 h2 => descend_noMatch CaseId k ids' h1 h2) (ids ++ vals) hlen' hwfs
        (noMatch_of_count CaseId _ h0) hid.2
      rw [this, hscl.2]
      rfl
    rw [descendPairs]
    cases hk : isKey "id".toList key
    · simp only [Bool.not_false, if_true]
      by_cases hc : List.countP (Node.isMatch CaseId) value.nodes = 0
      · rw [descend_noMatch CaseId value ids hwfv (noMatch_of_count CaseId _ hc)]
        rcases hchild with h | h
        · subst h; omega
        · have := hrestpos h
          exact hrest ids hlen' hwfs hscs hscl.2 hid.2 (by omega) ⟨child, h, hr⟩
      · rcases hchild with h | h
        · subst h
          rw [ih child (by simp) ids hwfv hscv (by omega) hr]
          exact hnoRest (by omega)
        · have := hrestpos h
          omega
    · simp only [Bool.not_true, Bool.false_eq_true, if_false]
      rw [hk] at hscl
      have hs : value.Kind = Kind.ScalarNode := by simpa using hscl.1
      have hne : value.Value ≠ CaseId := by
        intro hv
        have := hid.1
        rw [hk] at this
        simp [hs, hv] at this
      simp only [hs, ne_eq, not_true_eq_false, if_false, hne]
      rcases hchild with h | h
      · subst h
        exfalso
        cases hr with
        | here n =>
          simp [Node.isMatch, hs] at ht
        | inSequence v content item target hitem hr' => simp [Node.Kind] at hs
        | inMapping v content c target hc hr' => simp [Node.Kind] at hs
      · have := hrestpos h
        exact hrest ids hlen' hwfs hscs hscl.2 hid.2 (by omega) ⟨child, h, hr⟩

theorem descend_oneMatch (CaseId : GoString) (target : Node) (sv : GoString)
    (items : List Node) (ht : target.isMatch CaseId = true)
    (hskip : valuesOfKey "skip_numbers".toList target.Content =
      [Node.mk Kind.SequenceNode sv items]) :
    ∀ n : Node, ∀ ids,
      (∀ m ∈ n.nodes, m.Kind = Kind.MappingNode → m.Content.length % 2 = 0) →
      (∀ m ∈ n.nodes, m.Kind = Kind.MappingNode → idValuesScalar m.Content = true) →
      List.countP (Node.isMatch CaseId) n.nodes = 1 → Reaches n target →
      descend CaseId n ids = some (ids ++ items.map Node.Value, none) := by
  intro n
  induction n using Node.induction with
  | h kind value content ih =>
    intro ids hwf hsc hcount hreach
    rw [nodes_mk] at hwf hsc hcount
    have hwf' : ∀ m ∈ nodesOfList content, m.Kind = Kind.MappingNode → m.Content.length % 2 = 0 :=
      fun m hm => hwf m (List.mem_cons_of_mem _ hm)
    have hsc' : ∀ m ∈ nodesOfList content,
        m.Kind = Kind.MappingNode → idValuesScalar m.Content = true :=
      fun m hm => hsc m (List.mem_cons_of_mem _ hm)
    rw [List.countP_cons] at hcount
    cases hreach with
    | here n =>
      have hkind : kind = Kind.MappingNode := by
        simp only [Node.isMatch, Node.Kind, Bool.and_eq_true, beq_iff_eq] at ht
        exact ht.1
      subst hkind
      have hlen := hwf _ (List.mem_cons_self _ _) rfl
      have hscl := hsc _ (List.mem_cons_self _ _) rfl
      have hid : hasId CaseId content = true := by
        simp only [Node.isMatch, Node.Kind, Node.Content, Bool.and_eq_true, beq_iff_eq] at ht
        exact ht.2
      rw [ht] at hcount
      have hno := noMatch_of_count CaseId (nodesOfList content) (by simpa using hcount)
      rw [descend, descendPairs_found CaseId content ids hlen hwf' hno hscl hid]
      exact collectSkipNumbers_one sv items content ids hlen hskip
    | inSequence v c item target hitem hr =>
      have hself : Node.isMatch CaseId (Node.mk Kind.SequenceNode value content) = false := by
        simp [Node.isMatch, Node.Kind]
      rw [hself] at hcount
      rw [descend, descendItems_oneMatch CaseId target _ ht content ih ids hwf' hsc'
        (by simpa using hcount) ⟨item, hitem, hr⟩]
    | inMapping v c child target hchild hr =>
      have hlen := hwf _ (List.mem_cons_self _ _) rfl
      have hscl := hsc _ (List.mem_cons_self _ _) rfl
      have hpos : 0 < List.countP (Node.isMatch CaseId) (nodesOfList content) :=
        List.countP_pos_iff.mpr ⟨target, mem_nodesOfList content child target
          (mappingValues_subset content hchild) (reaches_mem child target hr), ht⟩
      have hself : Node.isMatch CaseId (Node.mk Kind.MappingNode value content) = false := by
        cases hm : Node.isMatch CaseId (Node.mk Kind.MappingNode value content)
        · rfl
        · rw [hm] at hcount
          simp only [if_true] at hcount
          omega
      rw [hself] at hcount
      have hid : hasId CaseId content = false := by
        simpa [Node.isMatch, Node.Kind, Node.Content] using hself
      rw [descend, descendPairs_oneMatch CaseId target _ ht content ih ids hlen hwf' hsc' hscl hid
        (by simpa using hcount) ⟨child, hchild, hr⟩]

/-! ## The skip list -/

/-- C1: in a tree whose mappings hold pairs, where every `id` key has a scalar value, exactly
one mapping has a scalar key `id` with the value `CaseId`, that mapping is reached from the
root through sequence items and mapping values, and it has exactly one `skip_numbers` key,
whose value is a sequence: `UnmarshalYAML` returns no error and leaves in `QueryIds` the
values of the items of that sequence, in their order, and nothing else; `getSkippedQueries`
returns that list. -/
theorem UnmarshalYAML_one_match (filename CaseId : GoString) (root target : Node)
    (sv : GoString) (items : List Node)
    (hpairs : root.PairedMappings)
    (hscalar : ∀ n ∈ root.nodes, n.Kind = Kind.MappingNode → idValuesScalar n.Content = true)
    (hone : List.countP (Node.isMatch CaseId) root.nodes = 1)
    (hmatch : target.isMatch CaseId = true)
    (hreach : Reaches root target)
    (hskip : valuesOfKey "skip_numbers".toList target.Content =
      [Node.mk Kind.SequenceNode sv items]) :
    UnmarshalYAML CaseId root = some (items.map Node.Value, none) ∧
      getSkippedQueries filename root CaseId = some (.ok (items.map Node.Value)) := by
  have h : UnmarshalYAML CaseId root = some (items.map Node.Value, none) := by
    have := descend_oneMatch CaseId target sv items hmatch hskip root [] hpairs hscalar hone hreach
    rwa [List.nil_append] at this
  refine ⟨h, ?_⟩
  rw [getSkippedQueries, h]

set_option maxRecDepth 100000 in
/-- Witness of C1 on the sample configuration, for `case01`. -/
theorem UnmarshalYAML_one_match_witness :
    UnmarshalYAML "case01".toList sampleConf = some (["0001".toList, "0003".toList], none) ∧
      getSkippedQueries "integration_tests.yaml".toList sampleConf "case01".toList =
        some (.ok ["0001".toList, "0003".toList]) :=
  UnmarshalYAML_one_match "integration_tests.yaml".toList "case01".toList sampleConf
    (mapping [scalar "id", scalar "case01",
      scalar "skip_numbers", sequence [scalar "0001", scalar "0003"]])
    [] [scalar "0001", scalar "0003"]
    (by unfold Node.PairedMappings; decide) (by decide) (by decide) (by decide)
    (Reaches.inMapping _ _ _ _ (List.Mem.head _)
      (Reaches.inSequence _ _ _ _ (List.Mem.head _) (Reaches.here _)))
    rfl

/-- C6 (amended): in a tree whose mappings hold pairs, in which every `id` key has a scalar
value and no mapping has a scalar key `id` with the value `CaseId`, `UnmarshalYAML` leaves
`QueryIds` empty and returns no error, and `getSkippedQueries` returns the empty list. -/
theorem UnmarshalYAML_no_match (filename CaseId : GoString) (root : Node)
    (hpairs : root.PairedMappings)
    (hscalar : ∀ n ∈ root.nodes, n.Kind = Kind.MappingNode → idValuesScalar n.Content = true)
    (hno : ∀ n ∈ root.nodes, n.isMatch CaseId = false) :
    UnmarshalYAML CaseId root = some ([], none) ∧
      getSkippedQueries filename root CaseId = some (.ok []) := by
  have h : UnmarshalYAML CaseId root = some ([], rootError root) :=
    descend_noMatch CaseId root [] hpairs hno
  have he : rootError root = none := by
    rw [rootError, if_neg]
    intro hroot
    have := hscalar root (mem_nodes_self root) hroot.1
    rw [hroot.2] at this
    exact absurd this (by decide)
  rw [he] at h
  refine ⟨h, ?_⟩
  rw [getSkippedQueries, h]

set_option maxRecDepth 100000 in
/-- Witness of C6 on the sample configuration, for the absent `case03`. -/
theorem UnmarshalYAML_no_match_witness :
    UnmarshalYAML "case03".toList sampleConf = some ([], none) ∧
      getSkippedQueries "integration_tests.yaml".toList sampleConf "case03".toList =
        some (.ok []) :=
  UnmarshalYAML_no_match "integration_tests.yaml".toList "case03".toList sampleConf
    (by unfold Node.PairedMappings; decide) (by decide) (by decide)

set_option maxRecDepth 100000 in
/-- C6 (counterexample): the document `id: [case01]` has no mapping with a scalar key `id` whose
scalar value is `case01`, and `UnmarshalYAML` returns an error for it. -/
theorem UnmarshalYAML_no_match_counterexample :
    (∀ n ∈ (mapping [scalar "id", sequence [scalar "case01"]]).nodes,
        n.isMatch "case01".toList = false) ∧
      UnmarshalYAML "case01".toList (mapping [scalar "id", sequence [scalar "case01"]]) =
        some ([], some Error.nonScalarTask) ∧
      getSkippedQueries "integration_tests.yaml".toList
          (mapping [scalar "id", sequence [scalar "case01"]]) "case01".toList =
        some (.error (Error.inFile "integration_tests.yaml".toList Error.nonScalarTask)) :=
  ⟨by decide, by decide, rfl⟩

set_option maxRecDepth 100000 in
/-- C7 (failing inputs): below the root, a mapping whose `id` key has a sequence as value, and
a mapping matching `case01` whose `skip_numbers` value is a scalar, make `descend` return an
error that the calling `descend` drops: `getSkippedQueries` returns an empty skip list and no
error, while the same mappings at the root give the errors. -/
theorem getSkippedQueries_nested_error_dropped :
    getSkippedQueries "integration_tests.yaml".toList
        (mapping [scalar "cases", sequence [mapping [scalar "id", sequence [scalar "case01"]]]])
        "case01".toList = some (.ok []) ∧
      getSkippedQueries "integration_tests.yaml".toList
        (mapping [scalar "cases", sequence [mapping [scalar "id", scalar "case01",
          scalar "skip_numbers", scalar "0001"]]])
        "case01".toList = some (.ok []) ∧
      getSkippedQueries "integration_tests.yaml".toList
        (mapping [scalar "id", sequence [scalar "case01"]])
        "case01".toList =
          some (.error (Error.inFile "integration_tests.yaml".toList Error.nonScalarTask)) ∧
      getSkippedQueries "integration_tests.yaml".toList
        (mapping [scalar "id", scalar "case01", scalar "skip_numbers", scalar "0001"])
        "case01".toList =
          some (.error (Error.inFile "integration_tests.yaml".toList Error.nonListTask)) :=
  ⟨rfl, rfl, rfl, rfl⟩

set_option maxRecDepth 100000 in
theorem getSkippedQueries_sample :
    getSkippedQueries "integration_tests.yaml".toList sampleConf "case01".toList =
      some (.ok ["0001".toList, "0003".toList]) := by
  rfl

/-! ## The output file -/

theorem writeQueries_returned (files : List FileInfo) (w : Writer) (i : Nat)
    (h : ∀ file ∈ files, (getSQL file.Data).isSome = true) :
    ∃ w', writeQueries files w i = Outcome.returned w' ∧
      w'.file = (if files = [] then w.file else w.file ++ w.buf) ++
        ((files.enumFrom i).map fun p =>
          "[".toList ++ formatInt p.1 ++ "]\n; ".toList ++ p.2.Name ++
          "\nquery=".toList ++ (getSQL p.2.Data).getD [] ++
          "\nquery-results-file=/tmp/dbbench/".toList ++ formatInt p.1 ++
          ".csv\ncount=1\n\n".toList).flatten ∧
      w'.buf = (if files = [] then w.buf else []) := by
  induction files generalizing w i with
  | nil => exact ⟨w, rfl, by simp, by simp⟩
  | cons f fs ih =>
    obtain ⟨sql, hsql⟩ := Option.isSome_iff_exists.mp (h f (List.mem_cons_self _ _))
    obtain ⟨w', hw', hfile, hbuf⟩ := ih
      (Writer.Flush (Writer.WriteString (Writer.WriteString (Writer.WriteString
        (Writer.WriteString (Writer.WriteString w ("[".toList ++ formatInt i ++ "]\n".toList))
          ("; ".toList ++ f.Name ++ "\n".toList))
        ("query=".toList ++ sql ++ "\n".toList))
        ("query-results-file=/tmp/dbbench/".toList ++ formatInt i ++ ".csv\n".toList))
        "count=1\n\n".toList))
      (i + 1) (fun file hf => h file (List.mem_cons_of_mem _ hf))
    refine ⟨w', ?_, ?_, ?_⟩
    · rw [writeQueries]
      simp only [hsql]
      exact hw'
    · rw [hfile, List.enumFrom_cons, List.map_cons, List.flatten_cons, hsql]
      simp [Writer.WriteString, Writer.Flush, List.append_assoc]
    · rw [hbuf]
      simp [Writer.Flush]

/-- C5 (amended): when the skip list is read without error and `getSQL` returns for each of the
`m` surviving files (no line of 65536 bytes or more), `main` returns and the output file
holds, after what was flushed of the count stanzas (all of them when `m` is not 0), exactly
`m` numbered stanzas: the stanza of the `k`-th surviving file (`k` counted from 0 over the
surviving files only) is
`[k]\n; <file name>\nquery=<getSQL of the file>\nquery-results-file=/tmp/dbbench/k.csv\ncount=1\n\n`,
with the same number in the bracket and in the path. -/
theorem main_numbered_stanzas (conf_file case_id : GoString) (conf : Node)
    (files : List FileInfo) (ys skippedQueryIds : List GoString)
    (h : getSkippedQueries conf_file conf case_id = some (.ok skippedQueryIds))
    (hsql : ∀ file ∈ selectSqlFiles files skippedQueryIds, (getSQL file.Data).isSome = true) :
    ∃ w, main conf_file case_id conf files ys = Outcome.returned w ∧
      (∃ flushed, flushed <+: generateCountQueries ys ∧
        w.file = flushed ++
          ((selectSqlFiles files skippedQueryIds).enum.map fun p =>
            "[".toList ++ formatInt p.1 ++ "]\n; ".toList ++ p.2.Name ++
            "\nquery=".toList ++ (getSQL p.2.Data).getD [] ++
            "\nquery-results-file=/tmp/dbbench/".toList ++ formatInt p.1 ++
            ".csv\ncount=1\n\n".toList).flatten) ∧
      (selectSqlFiles files skippedQueryIds ≠ [] →
        w.file = generateCountQueries ys ++
          ((selectSqlFiles files skippedQueryIds).enum.map fun p =>
            "[".toList ++ formatInt p.1 ++ "]\n; ".toList ++ p.2.Name ++
            "\nquery=".toList ++ (getSQL p.2.Data).getD [] ++
            "\nquery-results-file=/tmp/dbbench/".toList ++ formatInt p.1 ++
            ".csv\ncount=1\n\n".toList).flatten) := by
  obtain ⟨w, hw, hfile, _⟩ := writeQueries_returned (selectSqlFiles files skippedQueryIds)
    (Writer.WriteString { file := [], buf := [] } (generateCountQueries ys)) 0 hsql
  have hfile' : w.file =
      (if selectSqlFiles files skippedQueryIds = [] then [] else generateCountQueries ys) ++
        ((selectSqlFiles files skippedQueryIds).enum.map fun p =>
          "[".toList ++ formatInt p.1 ++ "]\n; ".toList ++ p.2.Name ++
          "\nquery=".toList ++ (getSQL p.2.Data).getD [] ++
          "\nquery-results-file=/tmp/dbbench/".toList ++ formatInt p.1 ++
          ".csv\ncount=1\n\n".toList).flatten := by
    rw [hfile]
    simp [Writer.WriteString, List.enum]
  refine ⟨w, ?_, ?_, ?_⟩
  · rw [main, h]
    exact hw
  · by_cases hsel : selectSqlFiles files skippedQueryIds = []
    · exact ⟨[], List.nil_prefix, by rw [hfile', if_pos hsel]⟩
    · exact ⟨generateCountQueries ys, List.prefix_refl _, by rw [hfile', if_neg hsel]⟩
  · intro hsel
    rw [hfile', if_neg hsel]

set_option maxRecDepth 100000 in
/-- Witness of C5 on the sample configuration and listing. -/
theorem main_numbered_stanzas_witness :
    ∃ w, main "integration_tests.yaml".toList "case01".toList sampleConf sampleFiles
        ["Object.json".toList] = Outcome.returned w ∧
      w.file = generateCountQueries ["Object.json".toList] ++
        ((selectSqlFiles sampleFiles ["0001".toList, "0003".toList]).enum.map fun p =>
          "[".toList ++ formatInt p.1 ++ "]\n; ".toList ++ p.2.Name ++
          "\nquery=".toList ++ (getSQL p.2.Data).getD [] ++
          "\nquery-results-file=/tmp/dbbench/".toList ++ formatInt p.1 ++
          ".csv\ncount=1\n\n".toList).flatten :=
  (main_numbered_stanzas "integration_tests.yaml".toList "case01".toList sampleConf sampleFiles
    ["Object.json".toList] ["0001".toList, "0003".toList] getSkippedQueries_sample
    (by decide)).elim fun w hw => ⟨w, hw.1, hw.2.2 (by decide)⟩

theorem main_panics_of_long_line (long : GoString) (hlong : getSQL long = none) :
    main "integration_tests.yaml".toList "case01".toList sampleConf
        [ { Name := "0002_b.sql".toList, Data := "SELECT 2;\n".toList },
          { Name := "0004_d.sql".toList, Data := long } ]
        ["Object.json".toList] =
      Outcome.panicked (some
        ("[countObject]\nquery=SELECT count(*) FROM Object\n" ++
          "query-results-file=/tmp/dbbench/countObject.csv\ncount=1\n\n" ++
          "[0]\n; 0002_b.sql\nquery=SELECT 2\n" ++
          "query-results-file=/tmp/dbbench/0.csv\ncount=1\n\n").toList) := by
  have hsel : selectSqlFiles
      [ { Name := "0002_b.sql".toList, Data := "SELECT 2;\n".toList },
        { Name := "0004_d.sql".toList, Data := long } ] ["0001".toList, "0003".toList] =
      [ { Name := "0002_b.sql".toList, Data := "SELECT 2;\n".toList },
        { Name := "0004_d.sql".toList, Data := long } ] := by
    rw [selectSqlFiles_eq_filter]
    rfl
  have h2 : getSQL "SELECT 2;\n".toList = some "SELECT 2".toList := by decide
  rw [main, getSkippedQueries_sample]
  simp only [hsel]
  rw [writeQueries]
  simp only [h2]
  rw [writeQueries]
  simp only [hlong]
  rfl

/-- C5 (counterexample): two SQL files survive the filter and the second holds a line of 65536
bytes: `main` stops in the panic of `getSQL`, and the output file holds the count stanza and
one numbered stanza, not two. -/
theorem main_numbered_stanzas_counterexample :
    selectSqlFiles
        [ { Name := "0002_b.sql".toList, Data := "SELECT 2;\n".toList },
          { Name := "0004_d.sql".toList, Data := List.replicate 65536 'a' } ]
        ["0001".toList, "0003".toList] =
        [ { Name := "0002_b.sql".toList, Data := "SELECT 2;\n".toList },
          { Name := "0004_d.sql".toList, Data := List.replicate 65536 'a' } ] ∧
      main "integration_tests.yaml".toList "case01".toList sampleConf
        [ { Name := "0002_b.sql".toList, Data := "SELECT 2;\n".toList },
          { Name := "0004_d.sql".toList, Data := List.replicate 65536 'a' } ]
        ["Object.json".toList] =
      Outcome.panicked (some
        ("[countObject]\nquery=SELECT count(*) FROM Object\n" ++
          "query-results-file=/tmp/dbbench/countObject.csv\ncount=1\n\n" ++
          "[0]\n; 0002_b.sql\nquery=SELECT 2\n" ++
          "query-results-file=/tmp/dbbench/0.csv\ncount=1\n\n").toList) := by
  constructor
  · rw [selectSqlFiles_eq_filter]
    rfl
  · exact main_panics_of_long_line _ (getSQL_long_line 65536 (by decide))

set_option maxRecDepth 100000 in
/-- C8 (failing input): with one table in the metadata and a query directory in which no SQL
file survives the filter, `main` ends with the count stanza in the buffer of the writer and
an empty output file. -/
theorem main_count_stanzas_not_flushed :
    main "integration_tests.yaml".toList "case01".toList sampleConf
        [ { Name := "0001_a.sql".toList, Data := "SELECT 1;\n".toList },
          { Name := "README".toList, Data := "queries\n".toList } ]
        ["Object.json".toList] =
      Outcome.returned
        (Writer.mk []
          ("[countObject]\nquery=SELECT count(*) FROM Object\n" ++
            "query-results-file=/tmp/dbbench/countObject.csv\ncount=1\n\n").toList) := by
  decide

end Dbbench
